import Mathlib

/-!
Verification of the post_irp C++ inference engine against its specification.

This file gives a shallow embedding of the engine's core components
(string normaliser, name decomposer, investor feature extractor, feature
matrix builder, LightGBM top-K template predictor, local-part resolver,
domain resolver, prediction engine) and proves or refutes the frozen
claims about them.

Modelling conventions:
* C++ `std::string` byte sequences are modelled as `List Char`; every
  multi-byte UTF-8 pattern the code matches (the six Germanic characters)
  is a single Unicode scalar, and its first byte can never occur as a
  continuation byte, so byte-level greedy matching coincides with
  character-level matching on valid UTF-8.
* `float`/`double` values are modelled as `ℚ` (the claims under study
  concern layout, ordering and 0/1 encodings, not rounding).
* The ICU NFKD transform is an external library; it is modelled as an
  abstract parameter `icu : List Char → List Char` composed with the
  in-repo ASCII stripper, exactly as `nfkd_normalize` composes them.
* The LightGBM booster is an external binary model; it is modelled as an
  abstract scoring function producing one score per row
  (`LGBM_BoosterPredictForMat` with `out_len = num_rows`).
* The rapidfuzz similarity scorer is external; it is modelled as an
  abstract function `sim : String → String → ℚ`.
* Fallible code (exceptions) is modelled with `Except`; the null-pointer
  dereference in `findBestFirmMatch` on an empty directory is modelled as
  `Option.none` propagating to an `Except.error`.
-/

namespace IRP

/-! ## String normaliser (`string_normalization`, normalize.cpp / splitter.cpp) -/

/-- `std::tolower` in the C locale: ASCII `A`–`Z` to `a`–`z`, all other
characters unchanged. -/
def toLowerChar (c : Char) : Char :=
  if 'A' ≤ c ∧ c ≤ 'Z' then Char.ofNat (c.toNat + 32) else c

/-- `string_normalization::to_lower`: byte-wise ASCII lowering. -/
def to_lower (l : List Char) : List Char := l.map toLowerChar

/-- `GERMAN_ASCII_MAPPINGS`: the six Germanic replacements. -/
def germanExpansion (c : Char) : Option (List Char) :=
  if c = 'ü' then some ['u', 'e']
  else if c = 'ö' then some ['o', 'e']
  else if c = 'ä' then some ['a', 'e']
  else if c = 'ß' then some ['s', 's']
  else if c = 'ø' then some ['o']
  else if c = 'å' then some ['a', 'a']
  else none

/-- `string_normalization::replace_german_chars`: greedy left-to-right
replacement of the fixed table; unmatched characters are copied. -/
def replace_german_chars : List Char → List Char
  | [] => []
  | c :: cs =>
    match germanExpansion c with
    | some rep => rep ++ replace_german_chars cs
    | none => c :: replace_german_chars cs

/-- `string_normalization::strip_to_ascii`: keep bytes `< 128`. -/
def strip_to_ascii (l : List Char) : List Char :=
  l.filter (fun c => c.toNat < 128)

/-- `string_normalization::nfkd_normalize` (success path): ICU NFKD
(abstract parameter `icu`) followed by the ASCII strip. -/
def nfkd_normalize (icu : List Char → List Char) (l : List Char) : List Char :=
  strip_to_ascii (icu l)

/-- The `WHITESPACE` constant used by `trim` (`" \t\n\r"`). -/
def TRIM_WS : List Char := [' ', '\t', '\n', '\r']

/-- The anonymous-namespace `trim` helper of the name decomposer. -/
def trimChars (l : List Char) : List Char :=
  ((l.dropWhile (fun c => TRIM_WS.contains c)).reverse.dropWhile
    (fun c => TRIM_WS.contains c)).reverse

/-- The trailing-punctuation set `".,;:!?}]"`. -/
def TRAILING_PUNCT : List Char := ['.', ',', ';', ':', '!', '?', '}', ']']

/-- The trailing-punctuation pop loop of `normalize_full_name`. -/
def dropTrailingPunct (l : List Char) : List Char :=
  (l.reverse.dropWhile (fun c => TRAILING_PUNCT.contains c)).reverse

/-- The `PASTE_NOISE` set (double quote, apostrophe, angle brackets). -/
def PASTE_NOISE : List Char := [Char.ofNat 34, Char.ofNat 39, '<', '>']

/-- The erase/remove of paste-noise characters in `normalize_full_name`. -/
def removePasteNoise (l : List Char) : List Char :=
  l.filter (fun c => !(PASTE_NOISE.contains c))

/-- The character class matched by the `\s` of `std::regex`. -/
def isRegexWs (c : Char) : Bool :=
  c = ' ' || c = '\t' || c = '\n' || c = '\r' || c = Char.ofNat 11 || c = Char.ofNat 12

/-- What a finished whitespace run is replaced by: nothing, the original
single character, or one space for a run of length at least two. -/
def flushRun (run : List Char) : List Char :=
  match run with
  | [] => []
  | [c] => [c]
  | _ => [' ']

/-- One pass over the input carrying the pending maximal whitespace run. -/
def collapseWsAux (run : List Char) : List Char → List Char
  | [] => flushRun run
  | c :: cs =>
    if isRegexWs c then collapseWsAux (run ++ [c]) cs
    else flushRun run ++ c :: collapseWsAux [] cs

/-- `std::regex_replace(result, std::regex("\s{2,}"), " ")`: every maximal
run of two or more whitespace characters becomes a single space; an
isolated whitespace character is kept as is. -/
def collapseWs (l : List Char) : List Char := collapseWsAux [] l

/-- Accumulator-based splitter core shared by `StringViewSplitter::split_all`:
collapses runs of the delimiter and drops empty segments. -/
def splitAllAux (d : Char) : List Char → List Char → List (List Char)
  | [], acc => if acc.isEmpty then [] else [acc.reverse]
  | c :: cs, acc =>
    if c = d then
      if acc.isEmpty then splitAllAux d cs []
      else acc.reverse :: splitAllAux d cs []
    else splitAllAux d cs (c :: acc)

/-- `StringViewSplitter::split_all`: delimiter tokenisation that drops
empty segments. -/
def splitAll (d : Char) (l : List Char) : List (List Char) :=
  splitAllAux d l []

/-- `StringViewSplitter::split_all_strings`: the same tokens as owning
strings. -/
def splitTokens (d : Char) (l : List Char) : List String :=
  (splitAll d l).map (fun cs => String.mk cs)

/-! ## Name decomposer (`name_decomposer.cpp`) -/

/-- `REMOVABLE_TOKENS`: the honorific/suffix stoplist. -/
def REMOVABLE_TOKENS : List String :=
  ["jr", "sr", "ii", "iii", "iv", "v", "phd", "md", "esq", "dr",
   "mr", "mrs", "ms", "prof", "sir"]

/-- `SURNAME_PARTICLES`: the surname-particle set. -/
def SURNAME_PARTICLES : List String :=
  ["santa", "san", "st", "von", "van", "de", "der", "dello", "vander",
   "del", "de la", "vom", "dela", "de los", "dos", "la", "los", "le",
   "du", "di", "da", "mac", "al", "abu", "bin", "ibn", "della"]

/-- The anonymous-namespace `remove_tokens` helper: strip removable
tokens from the front, then from the back. -/
def removeHonorifics (ts : List String) : List String :=
  ((ts.dropWhile (fun t => REMOVABLE_TOKENS.contains t)).reverse.dropWhile
    (fun t => REMOVABLE_TOKENS.contains t)).reverse

/-- The join-back loop at the end of `normalize_full_name` (tokens joined
by single spaces). -/
def joinTokens (ts : List String) : List Char :=
  List.intercalate [' '] (ts.map String.data)

/-- `NameDecomposer::normalize_full_name`: trim, ASCII lowercase, German
substitution, NFKD + ASCII strip, trailing-punctuation pop, paste-noise
erase, whitespace collapse, tokenise, honorific stripping, join. -/
def normalize_full_name (icu : List Char → List Char) (raw : String) : String :=
  if raw.data.isEmpty then "" else
  if (trimChars raw.data).isEmpty then "" else
  String.mk (joinTokens (removeHonorifics (splitTokens ' '
    (collapseWs (removePasteNoise (dropTrailingPunct
      (nfkd_normalize icu (replace_german_chars (to_lower (trimChars raw.data))))))))))

/-- `DecomposedName`: the three ordered component vectors produced by the
name decomposer. -/
structure DecomposedName where
  first_names : List String
  middle_names : List String
  last_names : List String
deriving DecidableEq, Repr

/-- The `i = 1 .. n-1` loop of `NameDecomposer::parse_name` on the tokens
after the first: the first particle token moves itself and everything
after it into the last names; otherwise interior tokens are middles and
the final token is the sole last name. Returns `(middles, lasts)`. -/
def processRest : List String → List String × List String
  | [] => ([], [])
  | x :: xs =>
    if SURNAME_PARTICLES.contains x then ([], x :: xs)
    else
      match xs with
      | [] => ([], [x])
      | _ :: _ =>
        let p := processRest xs
        (x :: p.1, p.2)

/-- `NameDecomposer::parse_name` applied to the cleaned full name: split
on spaces, hyphen-split the first token into first names, then classify
the remaining tokens.  (The early returns on an empty cleaned string and
an empty token list both coincide with the `[]` case of the split.) -/
def parse_name (cleaned : String) : DecomposedName :=
  match splitTokens ' ' cleaned.data with
  | [] => ⟨[], [], []⟩
  | p0 :: rest =>
    { first_names :=
        if p0.data.contains '-' then splitTokens '-' p0.data else [p0]
      middle_names := (processRest rest).1
      last_names := (processRest rest).2 }

/-- The `NameDecomposer` constructor: normalise then parse. -/
def decompose (icu : List Char → List Char) (raw : String) : DecomposedName :=
  parse_name (normalize_full_name icu raw)

/-- `NameDecomposer::has_middle_name`. -/
def has_middle_name (dn : DecomposedName) : Bool := !dn.middle_names.isEmpty

/-- `NameDecomposer::has_multiple_first_names`. -/
def has_multiple_first_names (dn : DecomposedName) : Bool :=
  decide (1 < dn.first_names.length)

/-- `NameDecomposer::has_multiple_middle_names`. -/
def has_multiple_middle_names (dn : DecomposedName) : Bool :=
  decide (1 < dn.middle_names.length)

/-- `NameDecomposer::has_multiple_last_names`. -/
def has_multiple_last_names (dn : DecomposedName) : Bool :=
  decide (1 < dn.last_names.length)

/-! ## Investor feature extractor (`investor_feature_extractor.cpp`) -/

/-- `InvestorFeatureExtractor::Flags` (all value-initialised to false). -/
structure Flags where
  has_german_char : Bool := false
  has_nfkd_normalized : Bool := false
  has_nickname : Bool := false
deriving DecidableEq

/-- The formal names that are keys of `NICKNAME_MAPPINGS` (every entry has
a non-empty nickname span, so `has_nickname` is exactly key membership). -/
def FORMAL_NAMES : List String :=
  ["alexander", "andrew", "anne", "arthur", "benjamin", "william", "robert",
   "catherine", "charles", "daniel", "david", "donald", "edward", "elizabeth",
   "eleanor", "francis", "frederick", "gerald", "gregory", "harold", "john",
   "jacob", "janet", "jeffrey", "jennifer", "james", "joseph", "jonathan",
   "joshua", "joy", "judith", "katherine", "kenneth", "lawrence", "lewis",
   "margaret", "martin", "matthew", "megan", "melvin", "michael", "nicholas",
   "patrick", "peter", "philip", "richard", "ronald", "samuel", "steven",
   "susan", "theodore", "terence", "timothy", "thomas", "anthony", "victor",
   "zachary", "nastya", "douglas", "mitchell", "wesley", "patricia", "rajiv"]

/-- `InvestorFeatureExtractor::extract_first_token`: skip leading spaces,
take up to the next space. -/
def extractFirstToken (l : List Char) : List Char :=
  (l.dropWhile (fun c => c == ' ')).takeWhile (fun c => c != ' ')

/-- `InvestorFeatureExtractor::extract`.  `parse_utf8_chars` yields one
slice per Unicode scalar, which is one `Char` in this model, so the
German check is per character. -/
def extract (icu : List Char → List Char) (full_name : String) : Flags :=
  if full_name.data.isEmpty then {} else
  let lower := to_lower full_name.data
  { has_german_char := lower.any (fun c => replace_german_chars [c] != [c])
    has_nfkd_normalized := nfkd_normalize icu lower != lower
    has_nickname :=
      let first_token := extractFirstToken lower
      !first_token.isEmpty && FORMAL_NAMES.contains (String.mk first_token) }

/-! ## Template metadata (`templates_loader.hpp` data types) -/

/-- `TemplateToken::Group`. -/
inductive NameGroup
  | First
  | Middle
  | Last
  | Unknown
deriving DecidableEq

/-- `data_loaders::TemplateToken`. -/
structure TemplateToken where
  group : NameGroup := .Unknown
  index : Nat := 0
  use_original : Bool := false
  use_nfkd : Bool := false
  use_translit : Bool := false
  use_nickname : Bool := false
  use_surname_particle : Bool := false
  use_initial : Bool := false
  separator : Option String := none
deriving DecidableEq

/-- `data_loaders::CandidateTemplate`. -/
structure CandidateTemplate where
  template_id : Int
  token_seq : List TemplateToken
  support_count : Int
  coverage_pct : ℚ
  in_mined_rules : Bool
  max_rule_confidence : ℚ
  avg_rule_confidence : ℚ
  uses_middle_name : Bool
  uses_multiple_firsts : Bool
  uses_multiple_middles : Bool
  uses_multiple_lasts : Bool
deriving DecidableEq

/-- `data_loaders::FirmStats`; the defaults are the value-initialised
`dummy_stats{}` used when the firm is absent. -/
structure FirmStats where
  num_templates : Int := 0
  num_investors : Int := 0
  diversity_ratio : ℚ := 0
  is_single_template : Bool := false
  is_shared_infra : Bool := false
  firm_is_multi_domain : Bool := false
deriving DecidableEq

/-- `data_loaders::FirmTemplateUsage`. -/
structure FirmTemplateUsage where
  support_count : Int
  coverage_pct : ℚ
  is_top_template : Bool
deriving DecidableEq

/-! ## Feature matrix builder (`feature_matrix_builder.cpp`) -/

/-- `static_cast<float>` of a `bool`. -/
def floatOfBool (b : Bool) : ℚ := if b then 1 else 0

/-- The per-template loop body of `build_feature_rows`: the 27
`emplace_back` calls in source order, then the next template. -/
def buildRows (name_has_middle name_has_multiple_firsts name_has_multiple_middles
    name_has_multiple_lasts : Bool) (flags : Flags) (stats : FirmStats)
    (firm_template_usage : Int → Option FirmTemplateUsage) :
    List CandidateTemplate → List ℚ
  | [] => []
  | tmpl :: rest =>
    let usage_it := firm_template_usage tmpl.template_id
    let in_firm_templates : Bool := usage_it.isSome
    let firm_support_count : Int :=
      match usage_it with | some u => u.support_count | none => 0
    let firm_coverage_pct : ℚ :=
      match usage_it with | some u => u.coverage_pct | none => 0
    let is_top_template : Bool :=
      match usage_it with | some u => u.is_top_template | none => false
    let clash : Bool :=
      (tmpl.uses_middle_name && name_has_middle) ||
      (tmpl.uses_multiple_firsts && name_has_multiple_firsts) ||
      (tmpl.uses_multiple_middles && name_has_multiple_middles) ||
      (tmpl.uses_multiple_lasts && name_has_multiple_lasts)
    floatOfBool in_firm_templates ::
    floatOfBool stats.is_shared_infra ::
    floatOfBool stats.firm_is_multi_domain ::
    floatOfBool flags.has_german_char ::
    floatOfBool flags.has_nfkd_normalized ::
    floatOfBool flags.has_nickname ::
    floatOfBool name_has_multiple_firsts ::
    floatOfBool name_has_middle ::
    floatOfBool name_has_multiple_middles ::
    floatOfBool name_has_multiple_lasts ::
    (tmpl.support_count : ℚ) ::
    tmpl.coverage_pct ::
    floatOfBool tmpl.in_mined_rules ::
    tmpl.max_rule_confidence ::
    tmpl.avg_rule_confidence ::
    floatOfBool tmpl.uses_middle_name ::
    floatOfBool tmpl.uses_multiple_firsts ::
    floatOfBool tmpl.uses_multiple_middles ::
    floatOfBool tmpl.uses_multiple_lasts ::
    (firm_support_count : ℚ) ::
    firm_coverage_pct ::
    floatOfBool is_top_template ::
    floatOfBool clash ::
    (stats.num_templates : ℚ) ::
    (stats.num_investors : ℚ) ::
    stats.diversity_ratio ::
    floatOfBool stats.is_single_template ::
    buildRows name_has_middle name_has_multiple_firsts name_has_multiple_middles
      name_has_multiple_lasts flags stats firm_template_usage rest

/-- `features::builder::build_feature_rows`: missing firm stats fall back
to the value-initialised dummy, a missing usage map to the empty map. -/
def build_feature_rows (investor_name : DecomposedName) (flags : Flags)
    (firm_name : String) (templates : List CandidateTemplate)
    (firm_stats : String → Option FirmStats)
    (firm_template_usage_map : String → Option (Int → Option FirmTemplateUsage)) :
    List ℚ :=
  let stats := (firm_stats firm_name).getD {}
  let firm_template_usage := (firm_template_usage_map firm_name).getD (fun _ => none)
  buildRows (has_middle_name investor_name) (has_multiple_first_names investor_name)
    (has_multiple_middle_names investor_name) (has_multiple_last_names investor_name)
    flags stats firm_template_usage templates

/-- Modelled from the spec (§4.6): the 27 features of one row, written in
the spec's fixed order (`in_firm_templates` first, `firm_is_single_template`
last), booleans encoded as 0/1, absent firm-usage fields encoded as zero. -/
def specFeatureRow (dn : DecomposedName) (flags : Flags) (stats : FirmStats)
    (usage : Int → Option FirmTemplateUsage) (t : CandidateTemplate) : List ℚ :=
  [floatOfBool (usage t.template_id).isSome,
   floatOfBool stats.is_shared_infra,
   floatOfBool stats.firm_is_multi_domain,
   floatOfBool flags.has_german_char,
   floatOfBool flags.has_nfkd_normalized,
   floatOfBool flags.has_nickname,
   floatOfBool (has_multiple_first_names dn),
   floatOfBool (has_middle_name dn),
   floatOfBool (has_multiple_middle_names dn),
   floatOfBool (has_multiple_last_names dn),
   (t.support_count : ℚ),
   t.coverage_pct,
   floatOfBool t.in_mined_rules,
   t.max_rule_confidence,
   t.avg_rule_confidence,
   floatOfBool t.uses_middle_name,
   floatOfBool t.uses_multiple_firsts,
   floatOfBool t.uses_multiple_middles,
   floatOfBool t.uses_multiple_lasts,
   ((((usage t.template_id).map FirmTemplateUsage.support_count).getD 0 : Int) : ℚ),
   ((usage t.template_id).map FirmTemplateUsage.coverage_pct).getD 0,
   floatOfBool (((usage t.template_id).map FirmTemplateUsage.is_top_template).getD false),
   floatOfBool ((t.uses_middle_name && has_middle_name dn) ||
     (t.uses_multiple_firsts && has_multiple_first_names dn) ||
     (t.uses_multiple_middles && has_multiple_middle_names dn) ||
     (t.uses_multiple_lasts && has_multiple_last_names dn)),
   (stats.num_templates : ℚ),
   (stats.num_investors : ℚ),
    stats.diversity_ratio,
   floatOfBool stats.is_single_template]

/-- The 0-indexed positions of the boolean-valued features in a row. -/
def boolFeaturePositions : List Nat :=
  [0, 1, 2, 3, 4, 5, 6, 7, 8, 9, 12, 15, 16, 17, 18, 21, 22, 26]

/-! ## LightGBM template predictor (`light_gbm_template_predictor.cpp`) -/

/-- `TemplatePrediction` (the metadata pointer is modelled by value). -/
structure TemplatePrediction where
  index : Nat
  score : ℚ
  template_id : Int
  metadata : CandidateTemplate
deriving DecidableEq

/-- `FEATURES_PER_ROW`. -/
def FEATURES_PER_ROW : Nat := 27

/-- `LightGBMTemplatePredictor::predict_scores`: the external booster is
an abstract row scorer; `LGBM_BoosterPredictForMat` writes one score per
row (`out_len = num_rows`, making the defensive resize a no-op). -/
def predict_scores (booster : List ℚ → Nat → ℚ) (flat_matrix : List ℚ) : List ℚ :=
  if flat_matrix.isEmpty then []
  else (List.range (flat_matrix.length / FEATURES_PER_ROW)).map (booster flat_matrix)

/-- The result-building loop of `predict_top_templates`: one
`TemplatePrediction` per score, paired with the template at the same
index. -/
def buildResults : Nat → List ℚ → List CandidateTemplate → List TemplatePrediction
  | _, [], _ => []
  | _, _ :: _, [] => []
  | i, s :: ss, t :: ts => ⟨i, s, t.template_id, t⟩ :: buildResults (i + 1) ss ts

/-- The contract of `std::partial_sort(first, first + k, last, comp)`
for the `a.score > b.score` comparator: the output is a permutation of
the input whose first `k` elements are sorted by score descending and
are not outscored by any element of the tail.  The C++ standard leaves
the relative order of equal-scored elements unspecified, so the
embedding abstracts the library call as a parameter constrained only by
this contract — exactly as it abstracts the external ICU, LightGBM and
rapidfuzz calls. -/
def PartialSortSpec
    (psort : Nat → List TemplatePrediction → List TemplatePrediction) : Prop :=
  ∀ (k : Nat) (l : List TemplatePrediction),
    (psort k l).Perm l ∧
    ((psort k l).take k).Pairwise (fun a b => b.score ≤ a.score) ∧
    (∀ a ∈ (psort k l).take k, ∀ b ∈ (psort k l).drop k, b.score ≤ a.score)

/-- Insertion step of a stable score-descending sort: the new element
moves past exactly the strictly higher-scored prefix. -/
def insertDesc (x : TemplatePrediction) :
    List TemplatePrediction → List TemplatePrediction
  | [] => [x]
  | y :: ys => if y.score ≤ x.score then x :: y :: ys else y :: insertDesc x ys

/-- A stable full descending sort (equal scores keep their input order):
one admissible realisation of the `partial_sort` contract.  It is used
only as a concrete instance in witnesses, never as "the" model of the
library call, whose tie order is unspecified. -/
def sortDesc : List TemplatePrediction → List TemplatePrediction
  | [] => []
  | x :: xs => insertDesc x (sortDesc xs)

/-- Insertion step of an anti-stable score-descending sort: the new
element also moves past equal-scored entries. -/
def insertDescAnti (x : TemplatePrediction) :
    List TemplatePrediction → List TemplatePrediction
  | [] => [x]
  | y :: ys => if y.score < x.score then x :: y :: ys else y :: insertDescAnti x ys

/-- An anti-stable full descending sort (equal scores reversed): another
admissible realisation of the `partial_sort` contract.  On the
two-equal-rows counterexample input it produces exactly the output of
libstdc++'s heap-based `partial_sort` there (make_heap leaves the equal
pair in place, sort_heap swaps it to the back). -/
def sortDescAnti : List TemplatePrediction → List TemplatePrediction
  | [] => []
  | x :: xs => insertDescAnti x (sortDescAnti xs)

/-- The stable realisation packaged as a `partial_sort` argument. -/
def psortStable : Nat → List TemplatePrediction → List TemplatePrediction :=
  fun _ l => sortDesc l

/-- The anti-stable realisation packaged as a `partial_sort` argument. -/
def psortAnti : Nat → List TemplatePrediction → List TemplatePrediction :=
  fun _ l => sortDescAnti l

/-- `LightGBMTemplatePredictor::predict_top_templates`.  `psort` stands
for the standard library's `std::partial_sort`, called with
`sort_size = min(top_k, results.size())`; the conditional resize is the
truncation to `top_k`. -/
def predict_top_templates
    (psort : Nat → List TemplatePrediction → List TemplatePrediction)
    (booster : List ℚ → Nat → ℚ) (flat_matrix : List ℚ)
    (templates : List CandidateTemplate) (top_k : Nat) :
    Except String (List TemplatePrediction) :=
  if flat_matrix.isEmpty || templates.isEmpty then .ok []
  else if flat_matrix.length ≠ templates.length * FEATURES_PER_ROW then
    .error "Size mismatch between rows and candidate templates."
  else
    let results := buildResults 0 (predict_scores booster flat_matrix) templates
    .ok ((psort (min top_k results.length) results).take top_k)

/-! ## Local-part resolver (`resolve_email_local_part.cpp`) -/

/-- Result of rendering a template: a rendered string, the
"not applicable" abort (`std::nullopt` in source), or the
`std::invalid_argument` thrown by `get_name_group` on an unknown group. -/
inductive RenderResult
  | ok (s : String)
  | notApplicable
  | invalidGroup
deriving DecidableEq

/-- The anonymous-namespace `get_name_group` selector (total version used
in statements; the resolver itself maps `Unknown` to `invalidGroup`). -/
def namesOf (nd : DecomposedName) : NameGroup → List String
  | .First => nd.first_names
  | .Middle => nd.middle_names
  | .Last => nd.last_names
  | .Unknown => []

/-- The token loop of `resolve_email_local_part`, with the accumulated
output stream. -/
def resolveAux (name : DecomposedName) :
    List TemplateToken → List Char → RenderResult
  | [], acc => .ok (String.mk acc)
  | token :: rest, acc =>
    match token.separator with
    | some sep => resolveAux name rest (acc ++ sep.data)
    | none =>
      match token.group with
      | .Unknown => .invalidGroup
      | g =>
        let group_vec := namesOf name g
        if token.index < group_vec.length then
          let raw := group_vec.getD token.index ""
          if token.use_initial then
            match raw.data with
            | [] => .notApplicable
            | c :: _ => resolveAux name rest (acc ++ to_lower [toLowerChar c])
          else resolveAux name rest (acc ++ to_lower raw.data)
        else .notApplicable

/-- `local_part_resolver::resolve_email_local_part`. -/
def resolve_email_local_part (name : DecomposedName)
    (token_seq : List TemplateToken) : RenderResult :=
  resolveAux name token_seq []

/-! ## Domain resolver (`domain_resolver.cpp`) -/

/-- `data_loaders::CacheEntry`. -/
structure CacheEntry where
  canonical_firm : String
  match_score : ℚ
deriving DecidableEq

/-- The mutable per-resolver data: the canonical firm directory and the
fuzzy-match cache (association lists standing for the unordered maps;
directory order is the fuzzy-match iteration order). -/
structure ResolverState where
  firm_to_domain : List (String × String)
  firm_cache : List (String × (String × CacheEntry))
deriving DecidableEq

/-- `data_loaders::normalize_firm_name`: lowercase, preserving spaces and
punctuation. -/
def normalize_firm_name (firm_name : String) : String :=
  String.mk (to_lower firm_name.data)

/-- The selection loop of `findBestFirmMatch`: running best score
(initially 0) and best pointers (initially null, modelled as `none`);
the `score >= best_score` comparison makes later ties win. -/
def findBestLoop (sim : String → String → ℚ) (query : String) :
    List (String × String) → ℚ → Option (String × String) →
    ℚ × Option (String × String)
  | [], best_score, best => (best_score, best)
  | (firm, domain) :: rest, best_score, best =>
    let score := sim query firm
    if best_score ≤ score then findBestLoop sim query rest score (some (firm, domain))
    else findBestLoop sim query rest best_score best

/-- `findBestFirmMatch`: returns `(domain, CacheEntry{firm, best_score})`;
the null-pointer dereference that the source performs when the directory
is empty (pointers never assigned) is modelled as `none`. -/
def findBestFirmMatch (sim : String → String → ℚ) (query : String)
    (firm_to_domain : List (String × String)) : Option (String × CacheEntry) :=
  match findBestLoop sim query firm_to_domain 0 none with
  | (best_score, some (firm, domain)) => some (domain, ⟨firm, best_score⟩)
  | (_, none) => none

/-- C++ `double` → `int` conversion (truncation toward zero). -/
def truncInt (q : ℚ) : Int := q.num / (q.den : Int)

/-- `DomainResolver::resolve_domain`: directory hit, then cache hit, then
fuzzy match with a write-through cache insert.  The state is passed
explicitly; the error case is the modelled null dereference. -/
def resolve_domain (sim : String → String → ℚ) (st : ResolverState)
    (raw_firm_name : String) :
    Except String ((String × String × Int) × ResolverState) :=
  let normalized_name := normalize_firm_name raw_firm_name
  match st.firm_to_domain.lookup normalized_name with
  | some d => .ok ((d, normalized_name, 100), st)
  | none =>
    match st.firm_cache.lookup normalized_name with
    | some (dom, ce) => .ok ((dom, ce.canonical_firm, truncInt ce.match_score), st)
    | none =>
      match findBestFirmMatch sim normalized_name st.firm_to_domain with
      | none => .error "empty firm directory: best-match pointers are null"
      | some (dom, ce) =>
        .ok ((dom, ce.canonical_firm, truncInt ce.match_score),
          { st with firm_cache := (normalized_name, (dom, ce)) :: st.firm_cache })

/-! ## Prediction engine (`email_prediction_engine.cpp`) -/

/-- `EmailPredictionResult` (the optional verification / enrichment
payloads perform network I/O, never change these three fields, and are
not configured in this model). -/
structure EmailPredictionResult where
  email : String
  score : ℚ
  template_id : Int
deriving DecidableEq

/-- Step 1 of `EmailPredictionEngine::predict`: caller-supplied domain,
else the configured resolver, else the missing-domain error. -/
def resolveDomainString
    (domain_resolver : Option (String → Except String (String × String × Int)))
    (firm_name : String) (domain : Option String) : Except String String :=
  match domain with
  | some d => .ok d
  | none =>
    match domain_resolver with
    | some r =>
      match r firm_name with
      | .ok t => .ok t.1
      | .error e => .error e
    | none => .error "Not provided with domain or domain resolver!"

/-- The result-formatting loop of `EmailPredictionEngine::predict`:
renders each surviving prediction, attaches `@domain`, silently drops
"not applicable" templates, and propagates the unknown-group exception. -/
def formatResults (name_struct : DecomposedName) (domain_string : String) :
    List TemplatePrediction → Except String (List EmailPredictionResult)
  | [] => .ok []
  | pred :: rest =>
    match resolve_email_local_part name_struct pred.metadata.token_seq with
    | .ok local_part =>
      match formatResults name_struct domain_string rest with
      | .ok rs =>
        .ok (⟨local_part ++ "@" ++ domain_string, pred.score, pred.template_id⟩ :: rs)
      | .error e => .error e
    | .notApplicable => formatResults name_struct domain_string rest
    | .invalidGroup => .error "Unknown name group"

/-- `EmailPredictionEngine::predict`: resolve the domain, decompose the
name, extract flags, pick the complex or standard predictor and template
set, build features, score, and format. -/
def enginePredict (icu : List Char → List Char)
    (psort : Nat → List TemplatePrediction → List TemplatePrediction)
    (std_booster complex_booster : List ℚ → Nat → ℚ)
    (std_templates complex_templates : List CandidateTemplate)
    (firm_stats : String → Option FirmStats)
    (firm_usage_map : String → Option (Int → Option FirmTemplateUsage))
    (domain_resolver : Option (String → Except String (String × String × Int)))
    (investor_name firm_name : String) (top_k : Nat) (domain : Option String) :
    Except String (List EmailPredictionResult) :=
  match resolveDomainString domain_resolver firm_name domain with
  | .error e => .error e
  | .ok domain_string =>
    let name_struct := decompose icu investor_name
    let flags := extract icu investor_name
    let complex_name :=
      has_middle_name name_struct || has_multiple_first_names name_struct ||
      has_multiple_last_names name_struct || flags.has_german_char ||
      flags.has_nfkd_normalized
    let feature_rows := build_feature_rows name_struct flags firm_name
      (if complex_name then complex_templates else std_templates)
      firm_stats firm_usage_map
    match predict_top_templates psort
        (if complex_name then complex_booster else std_booster) feature_rows
        (if complex_name then complex_templates else std_templates) top_k with
    | .error e => .error e
    | .ok top_predictions => formatResults name_struct domain_string top_predictions

/-- The engine pipeline specialised to one fixed predictor and template
set (steps 1, 2, 4–7 of §4.10, with the class selection already made). -/
def enginePredictUsing (icu : List Char → List Char)
    (psort : Nat → List TemplatePrediction → List TemplatePrediction)
    (booster : List ℚ → Nat → ℚ) (templates : List CandidateTemplate)
    (firm_stats : String → Option FirmStats)
    (firm_usage_map : String → Option (Int → Option FirmTemplateUsage))
    (domain_resolver : Option (String → Except String (String × String × Int)))
    (investor_name firm_name : String) (top_k : Nat) (domain : Option String) :
    Except String (List EmailPredictionResult) :=
  match resolveDomainString domain_resolver firm_name domain with
  | .error e => .error e
  | .ok domain_string =>
    let name_struct := decompose icu investor_name
    let flags := extract icu investor_name
    match predict_top_templates psort booster
        (build_feature_rows name_struct flags firm_name templates firm_stats firm_usage_map)
        templates top_k with
    | .error e => .error e
    | .ok top_predictions => formatResults name_struct domain_string top_predictions

/-! ## Concrete data used by witnesses and counterexamples -/

/-- A `first_0` token (whole first name at index 0). -/
def sampleTok : TemplateToken := { group := .First, index := 0 }

/-- A minimal candidate template rendering the first name. -/
def sampleTemplate : CandidateTemplate :=
  { template_id := 7, token_seq := [sampleTok], support_count := 3,
    coverage_pct := 0, in_mined_rules := false, max_rule_confidence := 0,
    avg_rule_confidence := 0, uses_middle_name := false,
    uses_multiple_firsts := false, uses_multiple_middles := false,
    uses_multiple_lasts := false }

/-- A second template (distinct id) rendering the last-name initial. -/
def sampleTemplate2 : CandidateTemplate :=
  { sampleTemplate with
    template_id := 9
    token_seq := [({ group := .Last, index := 0, use_initial := true } : TemplateToken)] }

/-- A booster that scores every row 0. -/
def zeroBooster : List ℚ → Nat → ℚ := fun _ _ => 0

/-- The identity stand-in for the external ICU NFKD transform (its exact
behaviour on ASCII input). -/
def icuId : List Char → List Char := fun l => l

/-! ## Splitter lemmas -/

/-- Every token produced by the splitter is non-empty. -/
theorem splitAllAux_ne_nil (d : Char) (l : List Char) :
    ∀ acc p, p ∈ splitAllAux d l acc → p ≠ [] := by
  induction l with
  | nil =>
    intro acc p hp
    simp only [splitAllAux] at hp
    split at hp
    · simp at hp
    · rename_i hacc
      simp only [List.mem_singleton] at hp
      subst hp
      simpa [List.isEmpty_iff] using hacc
  | cons c cs ih =>
    intro acc p hp
    simp only [splitAllAux] at hp
    split at hp
    · split at hp
      · exact ih [] p hp
      · rename_i hacc
        rcases List.mem_cons.mp hp with h | h
        · subst h
          simpa [List.isEmpty_iff] using hacc
        · exact ih [] p h
    · exact ih (c :: acc) p hp

/-- A character sitting in the accumulator ends up in some token. -/
theorem splitAllAux_mem_of_mem_acc (d : Char) (l : List Char) :
    ∀ acc c, c ∈ acc → ∃ p ∈ splitAllAux d l acc, c ∈ p := by
  induction l with
  | nil =>
    intro acc c hc
    refine ⟨acc.reverse, ?_, List.mem_reverse.mpr hc⟩
    simp only [splitAllAux]
    have : acc.isEmpty = false := by
      cases acc with
      | nil => cases hc
      | cons a as => rfl
    simp [this]
  | cons x xs ih =>
    intro acc c hc
    simp only [splitAllAux]
    split
    · have hacc : acc.isEmpty = false := by
        cases acc with
        | nil => cases hc
        | cons a as => rfl
      simp only [hacc]
      exact ⟨acc.reverse, by simp, List.mem_reverse.mpr hc⟩
    · exact ih (x :: acc) c (List.mem_cons_of_mem x hc)

/-- Every non-delimiter character of the input ends up in some token. -/
theorem splitAllAux_mem_char (d : Char) (l : List Char) :
    ∀ acc c, c ∈ l → c ≠ d → ∃ p ∈ splitAllAux d l acc, c ∈ p := by
  induction l with
  | nil => intro acc c hc; cases hc
  | cons x xs ih =>
    intro acc c hc hcd
    rcases List.mem_cons.mp hc with h | h
    · subst h
      simp only [splitAllAux]
      split
      · rename_i hxd; exact absurd hxd hcd
      · exact splitAllAux_mem_of_mem_acc d xs (c :: acc) c (List.mem_cons_self c acc)
    · simp only [splitAllAux]
      split
      · split
        · exact ih [] c h hcd
        · rcases ih [] c h hcd with ⟨p, hp, hcp⟩
          exact ⟨p, List.mem_cons_of_mem _ hp, hcp⟩
      · exact ih (x :: acc) c h hcd

/-- `splitAll` version of `splitAllAux_ne_nil`. -/
theorem splitAll_ne_nil (d : Char) (l : List Char) :
    ∀ p ∈ splitAll d l, p ≠ [] :=
  fun p hp => splitAllAux_ne_nil d l [] p hp

/-- `splitAll` version of `splitAllAux_mem_char`. -/
theorem splitAll_mem_char (d : Char) (l : List Char) (c : Char)
    (hc : c ∈ l) (hcd : c ≠ d) : ∃ p ∈ splitAll d l, c ∈ p :=
  splitAllAux_mem_char d l [] c hc hcd

/-- Every string token of `splitTokens` is non-empty. -/
theorem splitTokens_ne_empty (d : Char) (l : List Char) :
    ∀ s ∈ splitTokens d l, s ≠ "" := by
  intro s hs
  rcases List.mem_map.mp hs with ⟨cs, hcs, rfl⟩
  intro h
  have hdata : cs = ([] : List Char) := congrArg String.data h
  exact splitAll_ne_nil d l cs hcs hdata

/-! ## Name decomposer lemmas -/

/-- The middles and lasts produced by the token-classification loop are
drawn from its input tokens. -/
theorem processRest_fst_subset : ∀ l : List String, (processRest l).1 ⊆ l := by
  intro l
  induction l with
  | nil => simp [processRest]
  | cons x xs ih =>
    simp only [processRest]
    split
    · simp
    · cases xs with
      | nil => simp
      | cons y ys =>
        intro a ha
        rcases List.mem_cons.mp ha with h | h
        · exact h ▸ List.mem_cons_self x _
        · exact List.mem_cons_of_mem x (ih h)

/-- Companion to `processRest_fst_subset` for the last names. -/
theorem processRest_snd_subset : ∀ l : List String, (processRest l).2 ⊆ l := by
  intro l
  induction l with
  | nil => simp [processRest]
  | cons x xs ih =>
    simp only [processRest]
    split
    · exact fun a ha => ha
    · cases xs with
      | nil =>
        intro a ha
        simpa using ha
      | cons y ys => exact fun a ha => List.mem_cons_of_mem x (ih ha)

/-- Unfolding step for a non-particle head with at least one more token. -/
theorem processRest_cons_cons (x y : String) (ys : List String)
    (h : ¬ x ∈ SURNAME_PARTICLES) :
    processRest (x :: y :: ys) =
      (x :: (processRest (y :: ys)).1, (processRest (y :: ys)).2) := by
  simp [processRest, h]

theorem processRest_snd_ne_nil : ∀ (x : String) (xs : List String),
    (processRest (x :: xs)).2 ≠ [] := by
  intro x xs
  induction xs generalizing x with
  | nil => by_cases h : x ∈ SURNAME_PARTICLES <;> simp [processRest, h]
  | cons y ys ih =>
    by_cases h : x ∈ SURNAME_PARTICLES
    · simp [processRest, h]
    · rw [processRest_cons_cons x y ys h]
      exact ih y

/-- Every component the parser produces is a non-empty string. -/
theorem parse_name_mem_ne_empty (cleaned : String) (g : NameGroup) :
    ∀ x ∈ namesOf (parse_name cleaned) g, x ≠ "" := by
  have hall : ∀ s ∈ splitTokens ' ' cleaned.data, s ≠ "" :=
    splitTokens_ne_empty ' ' cleaned.data
  intro x hx
  rcases e : splitTokens ' ' cleaned.data with _ | ⟨p0, rest⟩
  · simp only [parse_name, e] at hx
    cases g <;> simp [namesOf] at hx
  · simp only [parse_name, e] at hx
    cases g with
    | First =>
      simp only [namesOf] at hx
      by_cases hh : p0.data.contains '-' = true
      · rw [if_pos hh] at hx
        exact splitTokens_ne_empty '-' p0.data x hx
      · rw [if_neg hh] at hx
        simp only [List.mem_singleton] at hx
        subst hx
        refine hall x ?_
        rw [e]
        exact List.mem_cons_self x rest
    | Middle =>
      simp only [namesOf] at hx
      have hm : x ∈ rest := processRest_fst_subset rest hx
      refine hall x ?_
      rw [e]
      exact List.mem_cons_of_mem p0 hm
    | Last =>
      simp only [namesOf] at hx
      have hm : x ∈ rest := processRest_snd_subset rest hx
      refine hall x ?_
      rw [e]
      exact List.mem_cons_of_mem p0 hm
    | Unknown => simp [namesOf] at hx

/-- If the cleaned name contains any character other than a space or a
hyphen, the parser produces at least one non-empty component. -/
theorem parse_name_has_component (cleaned : String)
    (h : ∃ c, c ∈ cleaned.data ∧ c ≠ ' ' ∧ c ≠ '-') :
    (parse_name cleaned).first_names ≠ [] ∨
      (parse_name cleaned).middle_names ≠ [] ∨
      (parse_name cleaned).last_names ≠ [] := by
  rcases h with ⟨c, hc, hsp, hhy⟩
  rcases splitAll_mem_char ' ' cleaned.data c hc hsp with ⟨p, hp, hcp⟩
  have hps : String.mk p ∈ splitTokens ' ' cleaned.data :=
    List.mem_map.mpr ⟨p, hp, rfl⟩
  rcases e : splitTokens ' ' cleaned.data with _ | ⟨p0, rest⟩
  · rw [e] at hps; cases hps
  · simp only [parse_name, e]
    cases rest with
    | cons r rs =>
      right; right
      simpa using processRest_snd_ne_nil r rs
    | nil =>
      left
      rw [e] at hps
      simp only [List.mem_singleton] at hps
      by_cases hh : p0.data.contains '-' = true
      · rw [if_pos hh]
        have hcp0 : c ∈ p0.data := by
          rw [← hps]; exact hcp
        rcases splitAll_mem_char '-' p0.data c hcp0 hhy with ⟨q, hq, _⟩
        intro hempty
        have hqmem : String.mk q ∈ splitTokens '-' p0.data :=
          List.mem_map.mpr ⟨q, hq, rfl⟩
        rw [hempty] at hqmem
        cases hqmem
      · rw [if_neg hh]
        simp

/-! ## C4: honorific stripping on "Mr. Dr. John Smith Jr" -/

/-- C4 counterexample: on the code, decomposing "Mr. Dr. John Smith Jr"
does not yield `first=[john], middle=[], last=[smith]`: the tokens "mr."
and "dr." keep their periods (only string-final punctuation is
stripped), so they do not match the bare honorific set and survive into
the first/middle components; only the bare trailing "jr" is dropped. -/
theorem c4_counterexample :
    decompose icuId "Mr. Dr. John Smith Jr" ≠
      { first_names := ["john"], middle_names := [], last_names := ["smith"] } ∧
    decompose icuId "Mr. Dr. John Smith Jr" =
      { first_names := ["mr."], middle_names := ["dr.", "john"],
        last_names := ["smith"] } := by
  constructor <;> decide

/-- C4 amended: for any NFKD transform that fixes the (pure-ASCII)
lowered string, decomposing "Mr. Dr. John Smith Jr" yields
`first=[mr.], middle=[dr., john], last=[smith]`: of the honorific/suffix
tokens only the bare "jr" is dropped, because "mr." and "dr." retain
their periods and are not members of the removable set. -/
theorem c4_amended (icu : List Char → List Char)
    (h : nfkd_normalize icu ("mr. dr. john smith jr".data) =
      "mr. dr. john smith jr".data) :
    decompose icu "Mr. Dr. John Smith Jr" =
      { first_names := ["mr."], middle_names := ["dr.", "john"],
        last_names := ["smith"] } := by
  have h1 : replace_german_chars (to_lower (trimChars ("Mr. Dr. John Smith Jr" : String).data)) =
      "mr. dr. john smith jr".data := by decide
  unfold decompose normalize_full_name
  rw [h1, h]
  decide

/-- C4 witness: the amended theorem applied to the identity ICU
transform. -/
theorem c4_witness :
    decompose icuId "Mr. Dr. John Smith Jr" =
      { first_names := ["mr."], middle_names := ["dr.", "john"],
        last_names := ["smith"] } :=
  c4_amended icuId (by decide)

/-! ## C7: non-empty components -/

/-- C7 counterexample: the non-empty input "mr" decomposes to three
empty component vectors (the lone token is on the honorific stoplist, so
cleaning reduces the name to zero tokens). -/
theorem c7_counterexample :
    ("mr" : String) ≠ "" ∧
    decompose icuId "mr" =
      { first_names := [], middle_names := [], last_names := [] } := by
  constructor <;> decide

/-- C7 amended: whenever the cleaned full name still contains a
character other than a space or a hyphen, at least one of the three
decomposed components is non-empty.  (Inputs that clean to nothing —
whitespace, honorifics such as "mr" — and inputs whose only token is all
hyphens are exactly the excluded cases.) -/
theorem c7_amended (icu : List Char → List Char) (s : String)
    (h : ∃ c, c ∈ (normalize_full_name icu s).data ∧ c ≠ ' ' ∧ c ≠ '-') :
    (decompose icu s).first_names ≠ [] ∨
      (decompose icu s).middle_names ≠ [] ∨
      (decompose icu s).last_names ≠ [] :=
  parse_name_has_component (normalize_full_name icu s) h

/-- C7 witness: the amended theorem applied to "john smith". -/
theorem c7_witness :
    (decompose icuId "john smith").first_names ≠ [] ∨
      (decompose icuId "john smith").middle_names ≠ [] ∨
      (decompose icuId "john smith").last_names ≠ [] :=
  c7_amended icuId "john smith" ⟨'j', by decide, by decide, by decide⟩

/-! ## Local-part resolver lemmas -/

/-- An in-bounds `getD` hits a member of the vector. -/
theorem getD_mem_of_lt (l : List String) (n : Nat) (h : n < l.length) :
    l.getD n "" ∈ l := by
  rw [List.getD_eq_getElem l "" h]
  exact List.getElem_mem h

/-- If every component string is non-empty and every non-separator token
is in bounds for a known group, the render loop completes with a string. -/
theorem resolveAux_ok (dn : DecomposedName)
    (hne : ∀ g x, x ∈ namesOf dn g → x ≠ "") :
    ∀ (tokens : List TemplateToken) (acc : List Char),
      (∀ t ∈ tokens, t.separator = none →
        t.group ≠ NameGroup.Unknown ∧ t.index < (namesOf dn t.group).length) →
      ∃ r, resolveAux dn tokens acc = .ok r := by
  intro tokens
  induction tokens with
  | nil => exact fun acc _ => ⟨_, rfl⟩
  | cons t ts ih =>
    intro acc h
    have hrest : ∀ u ∈ ts, u.separator = none →
        u.group ≠ NameGroup.Unknown ∧ u.index < (namesOf dn u.group).length :=
      fun u hu => h u (List.mem_cons_of_mem t hu)
    rcases hsep : t.separator with _ | sep
    · rcases h t (List.mem_cons_self t ts) hsep with ⟨hg, hidx⟩
      have hraw : (namesOf dn t.group).getD t.index "" ∈ namesOf dn t.group :=
        getD_mem_of_lt _ _ hidx
      have hrawne : (namesOf dn t.group).getD t.index "" ≠ "" :=
        hne t.group _ hraw
      cases hgr : t.group with
      | Unknown => exact absurd hgr hg
      | First =>
        rw [hgr] at hidx hrawne
        simp only [resolveAux, hsep, hgr, if_pos hidx]
        by_cases hini : t.use_initial
        · simp only [hini, if_true]
          rcases hdata : ((namesOf dn NameGroup.First).getD t.index "").data with _ | ⟨c, cs⟩
          · exact absurd (by cases hx : (namesOf dn NameGroup.First).getD t.index "" with
              | mk d => rw [hx] at hdata; subst hdata; rfl) hrawne
          · exact ih _ hrest
        · simp only [hini, if_false]
          exact ih _ hrest
      | Middle =>
        rw [hgr] at hidx hrawne
        simp only [resolveAux, hsep, hgr, if_pos hidx]
        by_cases hini : t.use_initial
        · simp only [hini, if_true]
          rcases hdata : ((namesOf dn NameGroup.Middle).getD t.index "").data with _ | ⟨c, cs⟩
          · exact absurd (by cases hx : (namesOf dn NameGroup.Middle).getD t.index "" with
              | mk d => rw [hx] at hdata; subst hdata; rfl) hrawne
          · exact ih _ hrest
        · simp only [hini, if_false]
          exact ih _ hrest
      | Last =>
        rw [hgr] at hidx hrawne
        simp only [resolveAux, hsep, hgr, if_pos hidx]
        by_cases hini : t.use_initial
        · simp only [hini, if_true]
          rcases hdata : ((namesOf dn NameGroup.Last).getD t.index "").data with _ | ⟨c, cs⟩
          · exact absurd (by cases hx : (namesOf dn NameGroup.Last).getD t.index "" with
              | mk d => rw [hx] at hdata; subst hdata; rfl) hrawne
          · exact ih _ hrest
        · simp only [hini, if_false]
          exact ih _ hrest
    · simp only [resolveAux, hsep]
      exact ih _ hrest

/-- If some non-separator token is out of bounds (and no token has an
unknown group), the render loop aborts with "not applicable". -/
theorem resolveAux_notApplicable (dn : DecomposedName) :
    ∀ (tokens : List TemplateToken) (acc : List Char),
      (∀ t ∈ tokens, t.separator = none → t.group ≠ NameGroup.Unknown) →
      (∃ t ∈ tokens, t.separator = none ∧ (namesOf dn t.group).length ≤ t.index) →
      resolveAux dn tokens acc = .notApplicable := by
  intro tokens
  induction tokens with
  | nil =>
    rintro acc _ ⟨t, ht, _⟩
    cases ht
  | cons t ts ih =>
    rintro acc hall ⟨b, hb, hbsep, hbidx⟩
    have hallts : ∀ u ∈ ts, u.separator = none → u.group ≠ NameGroup.Unknown :=
      fun u hu => hall u (List.mem_cons_of_mem t hu)
    rcases hsep : t.separator with _ | sep
    · have hg := hall t (List.mem_cons_self t ts) hsep
      have hbranch : t.index < (namesOf dn t.group).length →
          ∃ b2 ∈ ts, b2.separator = none ∧ (namesOf dn b2.group).length ≤ b2.index := by
        intro hidx
        rcases List.mem_cons.mp hb with hbt | hbts
        · subst hbt; omega
        · exact ⟨b, hbts, hbsep, hbidx⟩
      cases hgr : t.group with
      | Unknown => exact absurd hgr hg
      | First =>
        rw [hgr] at hbranch
        simp only [resolveAux, hsep, hgr]
        by_cases hidx : t.index < (namesOf dn NameGroup.First).length
        · rw [if_pos hidx]
          by_cases hini : t.use_initial
          · simp only [hini, if_true]
            rcases ((namesOf dn NameGroup.First).getD t.index "").data with _ | ⟨c, cs⟩
            · rfl
            · exact ih _ hallts (hbranch hidx)
          · simp only [hini, if_false]
            exact ih _ hallts (hbranch hidx)
        · rw [if_neg hidx]
      | Middle =>
        rw [hgr] at hbranch
        simp only [resolveAux, hsep, hgr]
        by_cases hidx : t.index < (namesOf dn NameGroup.Middle).length
        · rw [if_pos hidx]
          by_cases hini : t.use_initial
          · simp only [hini, if_true]
            rcases ((namesOf dn NameGroup.Middle).getD t.index "").data with _ | ⟨c, cs⟩
            · rfl
            · exact ih _ hallts (hbranch hidx)
          · simp only [hini, if_false]
            exact ih _ hallts (hbranch hidx)
        · rw [if_neg hidx]
      | Last =>
        rw [hgr] at hbranch
        simp only [resolveAux, hsep, hgr]
        by_cases hidx : t.index < (namesOf dn NameGroup.Last).length
        · rw [if_pos hidx]
          by_cases hini : t.use_initial
          · simp only [hini, if_true]
            rcases ((namesOf dn NameGroup.Last).getD t.index "").data with _ | ⟨c, cs⟩
            · rfl
            · exact ih _ hallts (hbranch hidx)
          · simp only [hini, if_false]
            exact ih _ hallts (hbranch hidx)
        · rw [if_neg hidx]
    · simp only [resolveAux, hsep]
      exact ih _ hallts ⟨b, by
        rcases List.mem_cons.mp hb with hbt | hbts
        · subst hbt; rw [hsep] at hbsep; cases hbsep
        · exact hbts, hbsep, hbidx⟩

/-! ## C8: local-part renderability -/

/-- C8: for a decomposed name produced by the decomposer, rendering
succeeds whenever every non-separator token refers to a known group at
an in-bounds index; and for any decomposed name and token sequence whose
non-separator tokens all have known groups, an out-of-bounds index makes
the rendering return "not applicable". -/
theorem c8_renderability :
    (∀ (icu : List Char → List Char) (s : String) (tokens : List TemplateToken),
      (∀ t ∈ tokens, t.separator = none →
        t.group ≠ NameGroup.Unknown ∧
          t.index < (namesOf (decompose icu s) t.group).length) →
      ∃ r, resolve_email_local_part (decompose icu s) tokens = .ok r) ∧
    (∀ (dn : DecomposedName) (tokens : List TemplateToken),
      (∀ t ∈ tokens, t.separator = none → t.group ≠ NameGroup.Unknown) →
      (∃ t ∈ tokens, t.separator = none ∧
        (namesOf dn t.group).length ≤ t.index) →
      resolve_email_local_part dn tokens = .notApplicable) := by
  constructor
  · intro icu s tokens h
    exact resolveAux_ok (decompose icu s)
      (fun g => parse_name_mem_ne_empty (normalize_full_name icu s) g) tokens [] h
  · intro dn tokens hall hex
    exact resolveAux_notApplicable dn tokens [] hall hex

/-- C8 witness: a `first_0` token renders against "john smith"; a middle
token aborts with "not applicable" (no middle names). -/
theorem c8_witness :
    (∃ r, resolve_email_local_part (decompose icuId "john smith")
      [sampleTok] = .ok r) ∧
    resolve_email_local_part (decompose icuId "john smith")
      [({ group := .Middle, index := 0 } : TemplateToken)] = .notApplicable :=
  ⟨c8_renderability.1 icuId "john smith" [sampleTok] (by decide),
   c8_renderability.2 (decompose icuId "john smith")
     [({ group := .Middle, index := 0 } : TemplateToken)] (by decide)
     ⟨({ group := .Middle, index := 0 } : TemplateToken), by decide, by decide, by decide⟩⟩

/-! ## Feature-matrix builder lemmas -/

/-- One loop iteration emits exactly the 27 spec-ordered features for the
head template, followed by the rows of the remaining templates. -/
theorem buildRows_cons (dn : DecomposedName) (flags : Flags) (stats : FirmStats)
    (usage : Int → Option FirmTemplateUsage) (t : CandidateTemplate)
    (ts : List CandidateTemplate) :
    buildRows (has_middle_name dn) (has_multiple_first_names dn)
      (has_multiple_middle_names dn) (has_multiple_last_names dn)
      flags stats usage (t :: ts) =
    specFeatureRow dn flags stats usage t ++
      buildRows (has_middle_name dn) (has_multiple_first_names dn)
        (has_multiple_middle_names dn) (has_multiple_last_names dn)
        flags stats usage ts := by
  rcases hu : usage t.template_id with _ | u <;>
    simp [buildRows, specFeatureRow, hu]

/-- A spec row is 27 entries wide. -/
theorem specFeatureRow_length (dn : DecomposedName) (flags : Flags)
    (stats : FirmStats) (usage : Int → Option FirmTemplateUsage)
    (t : CandidateTemplate) :
    (specFeatureRow dn flags stats usage t).length = 27 := rfl

/-- The flat matrix is 27 entries per template. -/
theorem buildRows_length (dn : DecomposedName) (flags : Flags) (stats : FirmStats)
    (usage : Int → Option FirmTemplateUsage) :
    ∀ ts : List CandidateTemplate,
      (buildRows (has_middle_name dn) (has_multiple_first_names dn)
        (has_multiple_middle_names dn) (has_multiple_last_names dn)
        flags stats usage ts).length = 27 * ts.length := by
  intro ts
  induction ts with
  | nil => rfl
  | cons t ts ih =>
    rw [buildRows_cons, List.length_append, specFeatureRow_length, ih,
      List.length_cons]
    ring

/-- Row extraction: the 27 entries starting at `27 * i` are the spec row
of the `i`-th template. -/
theorem buildRows_slice (dn : DecomposedName) (flags : Flags) (stats : FirmStats)
    (usage : Int → Option FirmTemplateUsage) :
    ∀ (ts : List CandidateTemplate) (i : Nat) (h : i < ts.length),
      ((buildRows (has_middle_name dn) (has_multiple_first_names dn)
          (has_multiple_middle_names dn) (has_multiple_last_names dn)
          flags stats usage ts).drop (27 * i)).take 27 =
        specFeatureRow dn flags stats usage (ts.get ⟨i, h⟩) := by
  intro ts
  induction ts with
  | nil => intro i h; exact absurd h (by simp)
  | cons t ts ih =>
    intro i h
    rw [buildRows_cons]
    cases i with
    | zero =>
      simp only [Nat.mul_zero, List.drop_zero]
      rw [List.take_left' (specFeatureRow_length dn flags stats usage t)]
      rfl
    | succ j =>
      have harith : 27 * (j + 1) =
          (specFeatureRow dn flags stats usage t).length + 27 * j := by
        rw [specFeatureRow_length]; ring
      rw [harith, List.drop_append]
      exact ih j (by simpa using Nat.lt_of_succ_lt_succ h)

/-- Every boolean-position entry of a spec row is 0 or 1. -/
theorem specFeatureRow_bool_positions (dn : DecomposedName) (flags : Flags)
    (stats : FirmStats) (usage : Int → Option FirmTemplateUsage)
    (t : CandidateTemplate) :
    ∀ j ∈ boolFeaturePositions,
      (specFeatureRow dn flags stats usage t).getD j 0 = 0 ∨
        (specFeatureRow dn flags stats usage t).getD j 0 = 1 := by
  have hb : ∀ b : Bool, floatOfBool b = 0 ∨ floatOfBool b = 1 := by
    intro b; cases b <;> simp [floatOfBool]
  intro j hj
  simp only [boolFeaturePositions] at hj
  fin_cases hj <;> exact hb _

/-! ## C1: feature matrix layout -/

/-- C1: the flat feature matrix has length `27 × N`; for every row index
`i < N` the 27 entries starting at `27 * i` are the features of
`templates[i]` in the spec's fixed order (`in_firm_templates` first,
`firm_is_single_template` last, per `specFeatureRow`), and every
boolean-position entry is 0 or 1. -/
theorem c1_feature_matrix (dn : DecomposedName) (flags : Flags)
    (firm_name : String) (templates : List CandidateTemplate)
    (firm_stats : String → Option FirmStats)
    (usage_map : String → Option (Int → Option FirmTemplateUsage)) :
    (build_feature_rows dn flags firm_name templates firm_stats usage_map).length
        = 27 * templates.length ∧
    ∀ i (h : i < templates.length),
      ((build_feature_rows dn flags firm_name templates firm_stats usage_map).drop
          (27 * i)).take 27 =
        specFeatureRow dn flags ((firm_stats firm_name).getD {})
          ((usage_map firm_name).getD (fun _ => none)) (templates.get ⟨i, h⟩) ∧
      ∀ j ∈ boolFeaturePositions,
        (((build_feature_rows dn flags firm_name templates firm_stats
            usage_map).drop (27 * i)).take 27).getD j 0 = 0 ∨
        (((build_feature_rows dn flags firm_name templates firm_stats
            usage_map).drop (27 * i)).take 27).getD j 0 = 1 := by
  constructor
  · exact buildRows_length dn flags _ _ templates
  · intro i h
    have hsl : ((build_feature_rows dn flags firm_name templates firm_stats
        usage_map).drop (27 * i)).take 27 =
        specFeatureRow dn flags ((firm_stats firm_name).getD {})
          ((usage_map firm_name).getD (fun _ => none)) (templates.get ⟨i, h⟩) :=
      buildRows_slice dn flags ((firm_stats firm_name).getD {})
        ((usage_map firm_name).getD (fun _ => none)) templates i h
    refine ⟨hsl, ?_⟩
    rw [hsl]
    exact specFeatureRow_bool_positions dn flags _ _ _

/-- C1 witness: the layout theorem applied to a one-template list at row
index 0. -/
theorem c1_witness :
    (build_feature_rows (decompose icuId "john smith") {} "f" [sampleTemplate]
        (fun _ => none) (fun _ => none)).length = 27 * [sampleTemplate].length ∧
    ((build_feature_rows (decompose icuId "john smith") {} "f" [sampleTemplate]
        (fun _ => none) (fun _ => none)).drop (27 * 0)).take 27 =
      specFeatureRow (decompose icuId "john smith") {}
        (((fun _ : String => (none : Option FirmStats)) "f").getD {})
        (((fun _ : String => (none : Option (Int → Option FirmTemplateUsage))) "f").getD
          (fun _ => none))
        ([sampleTemplate].get ⟨0, by decide⟩) :=
  ⟨(c1_feature_matrix (decompose icuId "john smith") {} "f" [sampleTemplate]
      (fun _ => none) (fun _ => none)).1,
   ((c1_feature_matrix (decompose icuId "john smith") {} "f" [sampleTemplate]
      (fun _ => none) (fun _ => none)).2 0 (by decide)).1⟩

/-! ## Predictor sorting lemmas -/

theorem insertDesc_perm (x : TemplatePrediction) (l : List TemplatePrediction) :
    (insertDesc x l).Perm (x :: l) := by
  induction l with
  | nil => exact List.Perm.refl _
  | cons y ys ih =>
    simp only [insertDesc]
    split
    · exact List.Perm.refl _
    · exact (ih.cons y).trans (List.Perm.swap x y ys)

theorem sortDesc_perm (l : List TemplatePrediction) : (sortDesc l).Perm l := by
  induction l with
  | nil => exact List.Perm.refl _
  | cons x xs ih => exact (insertDesc_perm x (sortDesc xs)).trans (ih.cons x)

theorem mem_insertDesc {z x : TemplatePrediction} {l : List TemplatePrediction} :
    z ∈ insertDesc x l ↔ z = x ∨ z ∈ l := by
  rw [(insertDesc_perm x l).mem_iff, List.mem_cons]

theorem insertDesc_pairwise_score (x : TemplatePrediction)
    (l : List TemplatePrediction)
    (hl : l.Pairwise (fun a b => b.score ≤ a.score)) :
    (insertDesc x l).Pairwise (fun a b => b.score ≤ a.score) := by
  induction l with
  | nil => simp [insertDesc]
  | cons y ys ih =>
    simp only [insertDesc]
    split
    · rename_i hle
      refine List.Pairwise.cons ?_ hl
      intro z hz
      rcases List.mem_cons.mp hz with rfl | hzys
      · exact hle
      · exact le_trans ((List.pairwise_cons.mp hl).1 z hzys) hle
    · rename_i hnle
      rcases List.pairwise_cons.mp hl with ⟨hy, hys⟩
      refine List.Pairwise.cons ?_ (ih hys)
      intro z hz
      rcases mem_insertDesc.mp hz with rfl | hzys
      · exact le_of_lt (lt_of_not_le hnle)
      · exact hy z hzys

theorem sortDesc_pairwise_score (l : List TemplatePrediction) :
    (sortDesc l).Pairwise (fun a b => b.score ≤ a.score) := by
  induction l with
  | nil => exact List.Pairwise.nil
  | cons x xs ih => exact insertDesc_pairwise_score x (sortDesc xs) ih

theorem insertDescAnti_perm (x : TemplatePrediction)
    (l : List TemplatePrediction) : (insertDescAnti x l).Perm (x :: l) := by
  induction l with
  | nil => exact List.Perm.refl _
  | cons y ys ih =>
    simp only [insertDescAnti]
    split
    · exact List.Perm.refl _
    · exact (ih.cons y).trans (List.Perm.swap x y ys)

theorem sortDescAnti_perm (l : List TemplatePrediction) :
    (sortDescAnti l).Perm l := by
  induction l with
  | nil => exact List.Perm.refl _
  | cons x xs ih => exact (insertDescAnti_perm x (sortDescAnti xs)).trans (ih.cons x)

theorem mem_insertDescAnti {z x : TemplatePrediction}
    {l : List TemplatePrediction} :
    z ∈ insertDescAnti x l ↔ z = x ∨ z ∈ l := by
  rw [(insertDescAnti_perm x l).mem_iff, List.mem_cons]

theorem insertDescAnti_pairwise_score (x : TemplatePrediction)
    (l : List TemplatePrediction)
    (hl : l.Pairwise (fun a b => b.score ≤ a.score)) :
    (insertDescAnti x l).Pairwise (fun a b => b.score ≤ a.score) := by
  induction l with
  | nil => simp [insertDescAnti]
  | cons y ys ih =>
    simp only [insertDescAnti]
    split
    · rename_i hlt
      refine List.Pairwise.cons ?_ hl
      intro z hz
      rcases List.mem_cons.mp hz with rfl | hzys
      · exact le_of_lt hlt
      · exact le_trans ((List.pairwise_cons.mp hl).1 z hzys) (le_of_lt hlt)
    · rename_i hnlt
      rcases List.pairwise_cons.mp hl with ⟨hy, hys⟩
      refine List.Pairwise.cons ?_ (ih hys)
      intro z hz
      rcases mem_insertDescAnti.mp hz with rfl | hzys
      · exact not_lt.mp hnlt
      · exact hy z hzys

theorem sortDescAnti_pairwise_score (l : List TemplatePrediction) :
    (sortDescAnti l).Pairwise (fun a b => b.score ≤ a.score) := by
  induction l with
  | nil => exact List.Pairwise.nil
  | cons x xs ih => exact insertDescAnti_pairwise_score x (sortDescAnti xs) ih

/-- A fully descending list dominates its own tail across any split. -/
theorem pairwise_take_drop (l : List TemplatePrediction) (k : Nat)
    (h : l.Pairwise (fun a b => b.score ≤ a.score)) :
    ∀ a ∈ l.take k, ∀ b ∈ l.drop k, b.score ≤ a.score := by
  rw [← List.take_append_drop k l] at h
  exact (List.pairwise_append.mp h).2.2

/-- The stable realisation meets the `partial_sort` contract. -/
theorem psortStable_spec : PartialSortSpec psortStable := by
  intro k l
  refine ⟨sortDesc_perm l, ?_, ?_⟩
  · exact (sortDesc_pairwise_score l).sublist (List.take_sublist _ _)
  · exact pairwise_take_drop (sortDesc l) k (sortDesc_pairwise_score l)

/-- The anti-stable realisation meets the `partial_sort` contract too. -/
theorem psortAnti_spec : PartialSortSpec psortAnti := by
  intro k l
  refine ⟨sortDescAnti_perm l, ?_, ?_⟩
  · exact (sortDescAnti_pairwise_score l).sublist (List.take_sublist _ _)
  · exact pairwise_take_drop (sortDescAnti l) k (sortDescAnti_pairwise_score l)

/-! ## Predictor result-building lemmas -/

theorem buildResults_length (ss : List ℚ) :
    ∀ (i : Nat) (ts : List CandidateTemplate), ss.length = ts.length →
      (buildResults i ss ts).length = ts.length := by
  induction ss with
  | nil =>
    intro i ts h
    cases ts with
    | nil => rfl
    | cons t ts => simp at h
  | cons s ss ih =>
    intro i ts h
    cases ts with
    | nil => simp at h
    | cons t ts =>
      simp only [buildResults, List.length_cons]
      rw [ih (i + 1) ts (by simpa using h)]

theorem buildResults_map_id (ss : List ℚ) :
    ∀ (i : Nat) (ts : List CandidateTemplate), ss.length = ts.length →
      (buildResults i ss ts).map TemplatePrediction.template_id =
        ts.map CandidateTemplate.template_id := by
  induction ss with
  | nil =>
    intro i ts h
    cases ts with
    | nil => rfl
    | cons t ts => simp at h
  | cons s ss ih =>
    intro i ts h
    cases ts with
    | nil => simp at h
    | cons t ts =>
      simp only [buildResults, List.map_cons]
      rw [ih (i + 1) ts (by simpa using h)]

theorem predict_scores_length (booster : List ℚ → Nat → ℚ) (flat : List ℚ)
    (h : flat.isEmpty = false) :
    (predict_scores booster flat).length = flat.length / 27 := by
  simp [predict_scores, h, FEATURES_PER_ROW]

/-! ## C2: top-K selection -/

/-- C2 counterexample: two rows with equal scores and `top_k = 2` under
the admissible anti-stable `partial_sort` realisation (`psortAnti_spec`;
at this input it is exactly what libstdc++'s heap-based `partial_sort`
computes): the row with the larger index comes first, so the claim's
ascending-index (ascending-template-id) tie preference fails on the
code, whose tie order is unspecified. -/
theorem c2_counterexample :
    predict_top_templates psortAnti zeroBooster (List.replicate 54 (0 : ℚ))
        [sampleTemplate, sampleTemplate2] 2 =
      .ok [({ index := 1, score := 0, template_id := 9,
              metadata := sampleTemplate2 } : TemplatePrediction),
           ({ index := 0, score := 0, template_id := 7,
              metadata := sampleTemplate } : TemplatePrediction)] ∧
    ¬ ([({ index := 1, score := 0, template_id := 9,
           metadata := sampleTemplate2 } : TemplatePrediction),
        ({ index := 0, score := 0, template_id := 7,
           metadata := sampleTemplate } : TemplatePrediction)].Pairwise
        (fun a b => a.score = b.score → a.index < b.index)) := by
  constructor
  · rfl
  · intro h
    have h1 := (List.pairwise_cons.mp h).1 _ (List.mem_cons_self _ _) rfl
    simp at h1

/-- C2 amended: for every `partial_sort` implementation meeting its
contract and every matching matrix/template pair, the call returns
exactly `min(top_k, N)` predictions sorted by score descending, with no
template id repeated; the relative order of equal-scored predictions is
implementation-defined and in particular need not be ascending index. -/
theorem c2_top_k
    (psort : Nat → List TemplatePrediction → List TemplatePrediction)
    (hpsort : PartialSortSpec psort)
    (booster : List ℚ → Nat → ℚ) (flat_matrix : List ℚ)
    (templates : List CandidateTemplate) (top_k : Nat)
    (res : List TemplatePrediction)
    (hmatch : flat_matrix.length = templates.length * 27)
    (hids : (templates.map CandidateTemplate.template_id).Nodup)
    (hok : predict_top_templates psort booster flat_matrix templates top_k =
      .ok res) :
    res.length = min top_k templates.length ∧
    res.Pairwise (fun a b => b.score ≤ a.score) ∧
    (res.map TemplatePrediction.template_id).Nodup := by
  by_cases hemp : (flat_matrix.isEmpty || templates.isEmpty) = true
  · have htl : templates.length = 0 := by
      rcases Bool.or_eq_true_iff.mp hemp with he | he
      · have : flat_matrix.length = 0 := by
          simpa [List.isEmpty_iff] using he
        omega
      · simpa [List.isEmpty_iff, List.length_eq_zero] using he
    have hres : res = [] := by
      simp only [predict_top_templates, hemp, if_true] at hok
      exact (Except.ok.inj hok).symm
    subst hres
    simp [htl]
  · have hor : (flat_matrix.isEmpty || templates.isEmpty) = false :=
      Bool.eq_false_iff.mpr hemp
    have hfl : flat_matrix.isEmpty = false := (Bool.or_eq_false_iff.mp hor).1
    have hsz : ¬ flat_matrix.length ≠ templates.length * FEATURES_PER_ROW := by
      rw [hmatch]
      simp [FEATURES_PER_ROW]
    simp only [predict_top_templates, hemp, Bool.false_eq_true, if_false,
      hsz, ite_false, ite_true, if_neg hsz] at hok
    have hres : res =
        (psort (min top_k (buildResults 0 (predict_scores booster flat_matrix)
            templates).length)
          (buildResults 0 (predict_scores booster flat_matrix)
            templates)).take top_k := (Except.ok.inj hok).symm
    have hslen : (predict_scores booster flat_matrix).length =
        templates.length := by
      rw [predict_scores_length booster flat_matrix hfl, hmatch]
      exact Nat.mul_div_cancel _ (by norm_num)
    have hrlen : (buildResults 0 (predict_scores booster flat_matrix)
        templates).length = templates.length :=
      buildResults_length _ 0 templates hslen
    rcases hpsort (min top_k (buildResults 0 (predict_scores booster
        flat_matrix) templates).length)
      (buildResults 0 (predict_scores booster flat_matrix) templates) with
      ⟨hperm, hsorted, _⟩
    have hplen := hperm.length_eq
    refine ⟨?_, ?_, ?_⟩
    · rw [hres, List.length_take, hplen, hrlen]
    · rw [hres]
      rcases le_or_lt top_k (buildResults 0 (predict_scores booster
          flat_matrix) templates).length with hk | hk
      · have key : (psort (min top_k (buildResults 0 (predict_scores booster
            flat_matrix) templates).length)
            (buildResults 0 (predict_scores booster flat_matrix)
              templates)).take top_k =
            (psort (min top_k (buildResults 0 (predict_scores booster
              flat_matrix) templates).length)
              (buildResults 0 (predict_scores booster flat_matrix)
                templates)).take (min top_k (buildResults 0 (predict_scores
                  booster flat_matrix) templates).length) := by
          rw [min_eq_left hk]
        rw [key]
        exact hsorted
      · have h1 : (psort (min top_k (buildResults 0 (predict_scores booster
            flat_matrix) templates).length)
            (buildResults 0 (predict_scores booster flat_matrix)
              templates)).take top_k =
            psort (min top_k (buildResults 0 (predict_scores booster
              flat_matrix) templates).length)
              (buildResults 0 (predict_scores booster flat_matrix)
                templates) := by
          apply List.take_of_length_le
          rw [hplen]
          exact le_of_lt hk
        have h2 : (psort (min top_k (buildResults 0 (predict_scores booster
            flat_matrix) templates).length)
            (buildResults 0 (predict_scores booster flat_matrix)
              templates)).take (min top_k (buildResults 0 (predict_scores
                booster flat_matrix) templates).length) =
            psort (min top_k (buildResults 0 (predict_scores booster
              flat_matrix) templates).length)
              (buildResults 0 (predict_scores booster flat_matrix)
                templates) := by
          apply List.take_of_length_le
          rw [hplen, min_eq_right (le_of_lt hk)]
        rw [h1, ← h2]
        exact hsorted
    · have hnodup : ((psort (min top_k (buildResults 0 (predict_scores booster
          flat_matrix) templates).length)
          (buildResults 0 (predict_scores booster flat_matrix)
            templates)).map TemplatePrediction.template_id).Nodup := by
        refine ((hperm.map TemplatePrediction.template_id).nodup_iff).mpr ?_
        rw [buildResults_map_id _ 0 templates hslen]
        exact hids
      rw [hres]
      exact hnodup.sublist ((List.take_sublist _ _).map _)

/-- C2 witness: the amended theorem applied to two equal-scored
templates with the stable realisation and `top_k = 1`. -/
theorem c2_witness :
    ([({ index := 0, score := 0, template_id := 7, metadata := sampleTemplate } :
        TemplatePrediction)]).length =
      min 1 [sampleTemplate, sampleTemplate2].length ∧
    ([({ index := 0, score := 0, template_id := 7, metadata := sampleTemplate } :
        TemplatePrediction)]).Pairwise (fun a b => b.score ≤ a.score) ∧
    (([({ index := 0, score := 0, template_id := 7, metadata := sampleTemplate } :
        TemplatePrediction)]).map TemplatePrediction.template_id).Nodup :=
  c2_top_k psortStable psortStable_spec zeroBooster (List.replicate 54 0)
    [sampleTemplate, sampleTemplate2] 1
    [({ index := 0, score := 0, template_id := 7, metadata := sampleTemplate } :
      TemplatePrediction)] (by decide) (by decide) (by rfl)

/-! ## C5: size-mismatch handling -/

/-- C5 counterexample: an empty flat matrix with one template violates
the 27-per-template length precondition, yet the call returns an empty
prediction list instead of failing: the emptiness early-return precedes
the size check. -/
theorem c5_counterexample :
    ([] : List ℚ).length ≠ 27 * [sampleTemplate].length ∧
    predict_top_templates psortStable zeroBooster [] [sampleTemplate] 3 =
      .ok [] := by
  constructor
  · decide
  · rfl

/-- C5 amended: when both the flat matrix and the template list are
non-empty, a length different from `27 × templates` fails with the
invalid-argument error; when either input is empty the call returns an
empty list without error. -/
theorem c5_amended
    (psort : Nat → List TemplatePrediction → List TemplatePrediction)
    (booster : List ℚ → Nat → ℚ) (flat_matrix : List ℚ)
    (templates : List CandidateTemplate) (top_k : Nat) :
    (flat_matrix ≠ [] → templates ≠ [] →
      flat_matrix.length ≠ templates.length * 27 →
      predict_top_templates psort booster flat_matrix templates top_k =
        .error "Size mismatch between rows and candidate templates.") ∧
    (flat_matrix = [] ∨ templates = [] →
      predict_top_templates psort booster flat_matrix templates top_k =
        .ok []) := by
  constructor
  · intro h1 h2 h3
    have hemp : (flat_matrix.isEmpty || templates.isEmpty) = false := by
      simp [List.isEmpty_iff, h1, h2]
    simp only [predict_top_templates, hemp, Bool.false_eq_true, if_false]
    rw [if_pos]
    simpa [FEATURES_PER_ROW] using h3
  · intro h
    have hemp : (flat_matrix.isEmpty || templates.isEmpty) = true := by
      rcases h with h | h <;> simp [h]
    simp [predict_top_templates, hemp]

/-- C5 witness: a one-float matrix with one template errors; two empty
inputs return the empty list. -/
theorem c5_witness :
    predict_top_templates psortStable zeroBooster [0] [sampleTemplate] 3 =
      .error "Size mismatch between rows and candidate templates." ∧
    predict_top_templates psortStable zeroBooster [] [] 3 = .ok [] :=
  ⟨(c5_amended psortStable zeroBooster [0] [sampleTemplate] 3).1 (by decide)
      (by decide) (by decide),
   (c5_amended psortStable zeroBooster [] [] 3).2 (Or.inl rfl)⟩

/-! ## Engine selection helper -/

/-- The engine's branch structure: both the matrix construction and the
scoring use the complex pair exactly when the complex-name disjunction
holds, so `predict` equals the fixed-class pipeline selected by it. -/
theorem enginePredict_eq_ite (icu : List Char → List Char)
    (psort : Nat → List TemplatePrediction → List TemplatePrediction)
    (std_booster complex_booster : List ℚ → Nat → ℚ)
    (std_templates complex_templates : List CandidateTemplate)
    (firm_stats : String → Option FirmStats)
    (firm_usage_map : String → Option (Int → Option FirmTemplateUsage))
    (domain_resolver : Option (String → Except String (String × String × Int)))
    (investor_name firm_name : String) (top_k : Nat) (domain : Option String) :
    enginePredict icu psort std_booster complex_booster std_templates
        complex_templates firm_stats firm_usage_map domain_resolver
        investor_name firm_name top_k domain =
      if has_middle_name (decompose icu investor_name) = true ∨
          has_multiple_first_names (decompose icu investor_name) = true ∨
          has_multiple_last_names (decompose icu investor_name) = true ∨
          (extract icu investor_name).has_german_char = true ∨
          (extract icu investor_name).has_nfkd_normalized = true
      then enginePredictUsing icu psort complex_booster complex_templates
            firm_stats firm_usage_map domain_resolver investor_name firm_name
            top_k domain
      else enginePredictUsing icu psort std_booster std_templates firm_stats
            firm_usage_map domain_resolver investor_name firm_name top_k
            domain := by
  by_cases hc : has_middle_name (decompose icu investor_name) = true ∨
      has_multiple_first_names (decompose icu investor_name) = true ∨
      has_multiple_last_names (decompose icu investor_name) = true ∨
      (extract icu investor_name).has_german_char = true ∨
      (extract icu investor_name).has_nfkd_normalized = true
  · rw [if_pos hc]
    have hb : (has_middle_name (decompose icu investor_name) ||
        has_multiple_first_names (decompose icu investor_name) ||
        has_multiple_last_names (decompose icu investor_name) ||
        (extract icu investor_name).has_german_char ||
        (extract icu investor_name).has_nfkd_normalized) = true := by
      simp only [Bool.or_eq_true]
      tauto
    simp [enginePredict, enginePredictUsing, hb]
  · rw [if_neg hc]
    have hb : (has_middle_name (decompose icu investor_name) ||
        has_multiple_first_names (decompose icu investor_name) ||
        has_multiple_last_names (decompose icu investor_name) ||
        (extract icu investor_name).has_german_char ||
        (extract icu investor_name).has_nfkd_normalized) = false := by
      rw [Bool.eq_false_iff]
      intro h
      apply hc
      simp only [Bool.or_eq_true] at h
      tauto
    simp [enginePredict, enginePredictUsing, hb]

/-! ## C3: complex-versus-standard selection -/

/-- C3: the engine uses the complex predictor and complex template set
iff the decomposed name has a middle name, multiple first names or
multiple last names, or the extracted flags report a German character or
an effective NFKD normalisation; otherwise it uses the standard pair. -/
theorem c3_selection (icu : List Char → List Char)
    (psort : Nat → List TemplatePrediction → List TemplatePrediction)
    (std_booster complex_booster : List ℚ → Nat → ℚ)
    (std_templates complex_templates : List CandidateTemplate)
    (firm_stats : String → Option FirmStats)
    (firm_usage_map : String → Option (Int → Option FirmTemplateUsage))
    (domain_resolver : Option (String → Except String (String × String × Int)))
    (investor_name firm_name : String) (top_k : Nat) (domain : Option String) :
    enginePredict icu psort std_booster complex_booster std_templates
        complex_templates firm_stats firm_usage_map domain_resolver
        investor_name firm_name top_k domain =
      if has_middle_name (decompose icu investor_name) = true ∨
          has_multiple_first_names (decompose icu investor_name) = true ∨
          has_multiple_last_names (decompose icu investor_name) = true ∨
          (extract icu investor_name).has_german_char = true ∨
          (extract icu investor_name).has_nfkd_normalized = true
      then enginePredictUsing icu psort complex_booster complex_templates
            firm_stats firm_usage_map domain_resolver investor_name firm_name
            top_k domain
      else enginePredictUsing icu psort std_booster std_templates firm_stats
            firm_usage_map domain_resolver investor_name firm_name top_k
            domain :=
  enginePredict_eq_ite icu psort std_booster complex_booster std_templates
    complex_templates firm_stats firm_usage_map domain_resolver investor_name
    firm_name top_k domain

/-! ## C6: domain resolver fixed points and idempotence -/

/-- C6: a firm whose lowercased key is in the directory resolves to
`(directory[key], key, 100)` without touching the cache; and a repeated
call with the same input returns the same triple and the same state (the
resolver is idempotent on the cache after the first call). -/
theorem c6_resolver (sim : String → String → ℚ) (st : ResolverState)
    (raw : String) (d : String) :
    (st.firm_to_domain.lookup (normalize_firm_name raw) = some d →
      resolve_domain sim st raw = .ok ((d, normalize_firm_name raw, 100), st)) ∧
    (∀ t st2, resolve_domain sim st raw = .ok (t, st2) →
      resolve_domain sim st2 raw = .ok (t, st2)) := by
  constructor
  · intro h
    simp [resolve_domain, h]
  · intro t st2 hok
    simp only [resolve_domain] at hok ⊢
    rcases h1 : st.firm_to_domain.lookup (normalize_firm_name raw) with _ | d0
    · rcases h2 : st.firm_cache.lookup (normalize_firm_name raw) with _ | p
      · rcases h3 : findBestFirmMatch sim (normalize_firm_name raw)
            st.firm_to_domain with _ | best
        · rw [h1, h2, h3] at hok
          cases hok
        · rw [h1, h2, h3] at hok
          rcases best with ⟨dom, ce⟩
          have hpair := Except.ok.inj hok
          cases hpair
          simp [h1, List.lookup]
      · rw [h1, h2] at hok
        rcases p with ⟨dom, ce⟩
        have hpair := Except.ok.inj hok
        cases hpair
        simp [h1, h2]
    · rw [h1] at hok
      have hpair := Except.ok.inj hok
      cases hpair
      simp [h1]

/-- C6 witness: a directory hit resolves with score 100 and an unchanged
state; after one fuzzy resolution of "Foo" the second call returns the
cached triple and leaves the state fixed. -/
theorem c6_witness :
    resolve_domain (fun _ _ => (50 : ℚ))
        ⟨[("acme corp", "acme.com")], []⟩ "Acme Corp" =
      .ok (("acme.com", "acme corp", 100), ⟨[("acme corp", "acme.com")], []⟩) ∧
    resolve_domain (fun _ _ => (50 : ℚ))
        ⟨[("acme corp", "acme.com")],
         [("foo", ("acme.com",
            { canonical_firm := "acme corp", match_score := 50 }))]⟩ "Foo" =
      .ok (("acme.com", "acme corp", 50),
        ⟨[("acme corp", "acme.com")],
         [("foo", ("acme.com",
            { canonical_firm := "acme corp", match_score := 50 }))]⟩) :=
  ⟨(c6_resolver (fun _ _ => (50 : ℚ)) ⟨[("acme corp", "acme.com")], []⟩
      "Acme Corp" "acme.com").1 (by decide),
   (c6_resolver (fun _ _ => (50 : ℚ)) ⟨[("acme corp", "acme.com")], []⟩
      "Foo" "").2 ("acme.com", "acme corp", 50)
      ⟨[("acme corp", "acme.com")],
       [("foo", ("acme.com",
          { canonical_firm := "acme corp", match_score := 50 }))]⟩ (by rfl)⟩

/-! ## C10: fuzzy-match loop safety -/

/-- Once the best pointers are set, the loop keeps them set, and the
final pair is the initial one or one drawn from the remaining
directory. -/
theorem findBestLoop_some (sim : String → String → ℚ) (query : String) :
    ∀ (l : List (String × String)) (best : ℚ) (f d : String),
      ∃ f2 d2, (findBestLoop sim query l best (some (f, d))).2 = some (f2, d2) ∧
        ((f2, d2) = (f, d) ∨ (f2, d2) ∈ l) := by
  intro l
  induction l with
  | nil => exact fun best f d => ⟨f, d, rfl, Or.inl rfl⟩
  | cons fd rest ih =>
    intro best f d
    rcases fd with ⟨firm, domain⟩
    simp only [findBestLoop]
    split
    · rcases ih (sim query firm) firm domain with ⟨f2, d2, h1, h2⟩
      refine ⟨f2, d2, h1, Or.inr ?_⟩
      rcases h2 with h | h
      · rw [h]; exact List.mem_cons_self _ _
      · exact List.mem_cons_of_mem _ h
    · rcases ih best f d with ⟨f2, d2, h1, h2⟩
      refine ⟨f2, d2, h1, ?_⟩
      rcases h2 with h | h
      · exact Or.inl h
      · exact Or.inr (List.mem_cons_of_mem _ h)

/-- C10: with a non-empty directory and non-negative similarity scores
the selection loop always assigns the best-match pointers (the `>=`
comparison against the initial best of 0 fires on the first entry), so
the final dereference is safe and the returned entry is drawn from the
directory; with an empty directory the pointers stay null and the
resolver's fuzzy path fails. -/
theorem c10_best_match_safety :
    (∀ (sim : String → String → ℚ) (query : String)
        (dir : List (String × String)), dir ≠ [] →
      (∀ p ∈ dir, 0 ≤ sim query p.1) →
      ∃ dom ce, findBestFirmMatch sim query dir = some (dom, ce) ∧
        (ce.canonical_firm, dom) ∈ dir) ∧
    (∀ (sim : String → String → ℚ) (query : String),
      findBestFirmMatch sim query [] = none) ∧
    (∀ (sim : String → String → ℚ) (st : ResolverState) (raw : String),
      st.firm_to_domain = [] →
      st.firm_cache.lookup (normalize_firm_name raw) = none →
      ∃ e, resolve_domain sim st raw = .error e) := by
  refine ⟨?_, ?_, ?_⟩
  · intro sim query dir hne hpos
    rcases dir with _ | ⟨⟨f0, d0⟩, rest⟩
    · exact absurd rfl hne
    · have h0 : (0 : ℚ) ≤ sim query f0 :=
        hpos (f0, d0) (List.mem_cons_self _ _)
      have hloop : findBestLoop sim query ((f0, d0) :: rest) 0 none =
          findBestLoop sim query rest (sim query f0) (some (f0, d0)) := by
        simp only [findBestLoop]
        rw [if_pos h0]
      rcases findBestLoop_some sim query rest (sim query f0) f0 d0 with
        ⟨f2, d2, h1, h2⟩
      rcases hl : findBestLoop sim query rest (sim query f0) (some (f0, d0)) with
        ⟨best2, ob⟩
      have hob : ob = some (f2, d2) := by rw [hl] at h1; exact h1
      subst hob
      refine ⟨d2, ⟨f2, best2⟩, ?_, ?_⟩
      · simp only [findBestFirmMatch, hloop, hl]
      · rcases h2 with h | h
        · rw [show f2 = f0 from congrArg Prod.fst h,
            show d2 = d0 from congrArg Prod.snd h]
          exact List.mem_cons_self _ _
        · exact List.mem_cons_of_mem _ h
  · intro sim query
    rfl
  · intro sim st raw hdir hcache
    refine ⟨"empty firm directory: best-match pointers are null", ?_⟩
    have hlook : st.firm_to_domain.lookup (normalize_firm_name raw) = none := by
      rw [hdir]; rfl
    have hbest : findBestFirmMatch sim (normalize_firm_name raw)
        st.firm_to_domain = none := by
      rw [hdir]; rfl
    simp [resolve_domain, hlook, hcache, hbest]

/-- C10 witness: the loop theorem applied to a one-entry directory with
the zero scorer, and the failure clause applied to the empty state. -/
theorem c10_witness :
    (∃ dom ce, findBestFirmMatch (fun _ _ => (0 : ℚ)) "q" [("a", "a.com")] =
        some (dom, ce) ∧ (ce.canonical_firm, dom) ∈ [("a", "a.com")]) ∧
    (∃ e, resolve_domain (fun _ _ => (0 : ℚ)) ⟨[], []⟩ "q" = .error e) :=
  ⟨c10_best_match_safety.1 (fun _ _ => (0 : ℚ)) "q" [("a", "a.com")]
      (by decide) (fun p _ => le_refl 0),
   c10_best_match_safety.2.2 (fun _ _ => (0 : ℚ)) ⟨[], []⟩ "q" rfl rfl⟩

/-! ## C9: email structure -/

/-- Each formatted result comes from a surviving prediction: its email
is the rendered local part, an `@`, and the domain string, and it keeps
the prediction's score and template id. -/
theorem formatResults_mem (dn : DecomposedName) (ds : String) :
    ∀ (preds : List TemplatePrediction) (res : List EmailPredictionResult),
      formatResults dn ds preds = .ok res →
      ∀ r ∈ res, ∃ p ∈ preds, ∃ lp,
        resolve_email_local_part dn p.metadata.token_seq = .ok lp ∧
        r.email = lp ++ "@" ++ ds ∧ r.score = p.score ∧
        r.template_id = p.template_id := by
  intro preds
  induction preds with
  | nil =>
    intro res h r hr
    have : ([] : List EmailPredictionResult) = res := Except.ok.inj h
    subst this
    cases hr
  | cons p ps ih =>
    intro res h r hr
    simp only [formatResults] at h
    rcases hrr : resolve_email_local_part dn p.metadata.token_seq with lp | _ | _
    · rw [hrr] at h
      rcases hrec : formatResults dn ds ps with e | rs
      · rw [hrec] at h
        cases h
      · rw [hrec] at h
        have hcons : ({ email := lp ++ "@" ++ ds, score := p.score, template_id := p.template_id } : EmailPredictionResult) :: rs = res := Except.ok.inj h
        subst hcons
        rcases List.mem_cons.mp hr with rfl | hmem
        · exact ⟨p, List.mem_cons_self p ps, lp, hrr, rfl, rfl, rfl⟩
        · rcases ih rs hrec r hmem with ⟨q, hq, lp2, h1, h2, h3, h4⟩
          exact ⟨q, List.mem_cons_of_mem p hq, lp2, h1, h2, h3, h4⟩
    · rw [hrr] at h
      rcases ih res h r hr with ⟨q, hq, lp2, h1, h2, h3, h4⟩
      exact ⟨q, List.mem_cons_of_mem p hq, lp2, h1, h2, h3, h4⟩
    · rw [hrr] at h
      cases h

/-- When neither side contributes an `@`, the assembled email has
exactly one. -/
theorem email_at_count (lp ds : String) (h1 : ¬ '@' ∈ lp.data)
    (h2 : ¬ '@' ∈ ds.data) : (lp ++ "@" ++ ds).data.count '@' = 1 := by
  have hdata : (lp ++ "@" ++ ds).data = lp.data ++ '@' :: ds.data := by
    simp [String.data_append]
  rw [hdata, List.count_append, List.count_cons_self,
    List.count_eq_zero.mpr h1, List.count_eq_zero.mpr h2]

/-- The per-class engine pipeline: every returned row originates from a
member of the top-prediction list that `predict_top_templates` computes
on the actual feature matrix, and its email is that prediction's
rendered local part, an `@`, and the resolved domain. -/
theorem enginePredictUsing_email (icu : List Char → List Char)
    (psort : Nat → List TemplatePrediction → List TemplatePrediction)
    (booster : List ℚ → Nat → ℚ) (templates : List CandidateTemplate)
    (firm_stats : String → Option FirmStats)
    (firm_usage_map : String → Option (Int → Option FirmTemplateUsage))
    (domain_resolver : Option (String → Except String (String × String × Int)))
    (investor_name firm_name : String) (top_k : Nat) (domain : Option String)
    (results : List EmailPredictionResult)
    (hok : enginePredictUsing icu psort booster templates firm_stats
      firm_usage_map domain_resolver investor_name firm_name top_k domain =
      .ok results) :
    ∃ ds preds,
      resolveDomainString domain_resolver firm_name domain = .ok ds ∧
      predict_top_templates psort booster
        (build_feature_rows (decompose icu investor_name)
          (extract icu investor_name) firm_name templates firm_stats
          firm_usage_map) templates top_k = .ok preds ∧
      ∀ r ∈ results, ∃ p ∈ preds, ∃ lp,
        resolve_email_local_part (decompose icu investor_name)
          p.metadata.token_seq = .ok lp ∧
        r.email = lp ++ "@" ++ ds ∧ r.score = p.score ∧
        r.template_id = p.template_id ∧
        (¬ '@' ∈ lp.data → ¬ '@' ∈ ds.data → r.email.data.count '@' = 1) := by
  simp only [enginePredictUsing] at hok
  rcases hds : resolveDomainString domain_resolver firm_name domain with e | ds
  · rw [hds] at hok
    cases hok
  · rw [hds] at hok
    rcases hpt : predict_top_templates psort booster
        (build_feature_rows (decompose icu investor_name)
          (extract icu investor_name) firm_name templates firm_stats
          firm_usage_map) templates top_k with e | preds
    · rw [hpt] at hok
      cases hok
    · rw [hpt] at hok
      refine ⟨ds, preds, rfl, rfl, ?_⟩
      intro r hr
      rcases formatResults_mem (decompose icu investor_name) ds preds results
          hok r hr with ⟨p, hp, lp, h1, h2, h3, h4⟩
      refine ⟨p, hp, lp, h1, h2, h3, h4, ?_⟩
      intro ha hb
      rw [h2]
      exact email_at_count lp ds ha hb

/-- C9 counterexample: a caller-supplied domain containing an `@` gives
a returned email with two `@` characters; the exactly-one-`@` invariant
fails as stated. -/
theorem c9_counterexample :
    enginePredict icuId psortStable zeroBooster zeroBooster [sampleTemplate]
        [sampleTemplate] (fun _ => none) (fun _ => none) none "john smith"
        "firm" 3 (some "a@b") =
      .ok [{ email := "john@a@b", score := 0, template_id := 7 }] ∧
    ("john@a@b" : String).data.count '@' ≠ 1 := by
  constructor
  · rfl
  · decide

/-- C9 amended: every returned row comes from a member of the
top-prediction list computed on the selected class's feature matrix; its
email is exactly that prediction's rendered local part, one `@`, and the
resolved domain string, and the row keeps the prediction's score and
template id; the email therefore contains exactly one `@` whenever
neither the rendered local part nor the domain contains one (a domain or
name containing `@` adds more). -/
theorem c9_email_structure (icu : List Char → List Char)
    (psort : Nat → List TemplatePrediction → List TemplatePrediction)
    (std_booster complex_booster : List ℚ → Nat → ℚ)
    (std_templates complex_templates : List CandidateTemplate)
    (firm_stats : String → Option FirmStats)
    (firm_usage_map : String → Option (Int → Option FirmTemplateUsage))
    (domain_resolver : Option (String → Except String (String × String × Int)))
    (investor_name firm_name : String) (top_k : Nat) (domain : Option String)
    (results : List EmailPredictionResult)
    (hok : enginePredict icu psort std_booster complex_booster std_templates
      complex_templates firm_stats firm_usage_map domain_resolver investor_name
      firm_name top_k domain = .ok results) :
    ∃ ds preds,
      resolveDomainString domain_resolver firm_name domain = .ok ds ∧
      predict_top_templates psort
        (if has_middle_name (decompose icu investor_name) = true ∨
            has_multiple_first_names (decompose icu investor_name) = true ∨
            has_multiple_last_names (decompose icu investor_name) = true ∨
            (extract icu investor_name).has_german_char = true ∨
            (extract icu investor_name).has_nfkd_normalized = true
         then complex_booster else std_booster)
        (build_feature_rows (decompose icu investor_name)
          (extract icu investor_name) firm_name
          (if has_middle_name (decompose icu investor_name) = true ∨
              has_multiple_first_names (decompose icu investor_name) = true ∨
              has_multiple_last_names (decompose icu investor_name) = true ∨
              (extract icu investor_name).has_german_char = true ∨
              (extract icu investor_name).has_nfkd_normalized = true
           then complex_templates else std_templates)
          firm_stats firm_usage_map)
        (if has_middle_name (decompose icu investor_name) = true ∨
            has_multiple_first_names (decompose icu investor_name) = true ∨
            has_multiple_last_names (decompose icu investor_name) = true ∨
            (extract icu investor_name).has_german_char = true ∨
            (extract icu investor_name).has_nfkd_normalized = true
         then complex_templates else std_templates) top_k = .ok preds ∧
      ∀ r ∈ results, ∃ p ∈ preds, ∃ lp,
        resolve_email_local_part (decompose icu investor_name)
          p.metadata.token_seq = .ok lp ∧
        r.email = lp ++ "@" ++ ds ∧ r.score = p.score ∧
        r.template_id = p.template_id ∧
        (¬ '@' ∈ lp.data → ¬ '@' ∈ ds.data → r.email.data.count '@' = 1) := by
  rw [enginePredict_eq_ite] at hok
  by_cases hc : has_middle_name (decompose icu investor_name) = true ∨
      has_multiple_first_names (decompose icu investor_name) = true ∨
      has_multiple_last_names (decompose icu investor_name) = true ∨
      (extract icu investor_name).has_german_char = true ∨
      (extract icu investor_name).has_nfkd_normalized = true
  · rw [if_pos hc] at hok
    simp only [if_pos hc]
    exact enginePredictUsing_email icu psort complex_booster complex_templates
      firm_stats firm_usage_map domain_resolver investor_name firm_name top_k
      domain results hok
  · rw [if_neg hc] at hok
    simp only [if_neg hc]
    exact enginePredictUsing_email icu psort std_booster std_templates
      firm_stats firm_usage_map domain_resolver investor_name firm_name top_k
      domain results hok

/-- C9 witness: the amended theorem applied to a concrete standard-path
prediction with the caller-supplied domain "x.com". -/
theorem c9_witness :
    ∃ ds preds,
      resolveDomainString none "firm" (some "x.com") = .ok ds ∧
      predict_top_templates psortStable zeroBooster
        (build_feature_rows (decompose icuId "john smith")
          (extract icuId "john smith") "firm" [sampleTemplate]
          (fun _ => none) (fun _ => none)) [sampleTemplate] 3 = .ok preds ∧
      ∀ r ∈ [({ email := "john@x.com", score := 0, template_id := 7 } :
          EmailPredictionResult)], ∃ p ∈ preds, ∃ lp,
        resolve_email_local_part (decompose icuId "john smith")
          p.metadata.token_seq = .ok lp ∧
        r.email = lp ++ "@" ++ ds ∧ r.score = p.score ∧
        r.template_id = p.template_id ∧
        (¬ '@' ∈ lp.data → ¬ '@' ∈ ds.data → r.email.data.count '@' = 1) :=
  c9_email_structure icuId psortStable zeroBooster zeroBooster [sampleTemplate]
    [sampleTemplate] (fun _ => none) (fun _ => none) none "john smith" "firm" 3
    (some "x.com")
    [({ email := "john@x.com", score := 0, template_id := 7 } :
      EmailPredictionResult)] (by rfl)

end IRP
